import Mathlib

/-!
Verification of the scheduling-and-allocation engine of the Tempo timesheet
automation tool (`tempo_automation.py`).

The Python source is shallowly embedded below: dates become a concrete
`Date` structure with explicit Gregorian-calendar arithmetic, dictionaries
become structures or association lists, sets of ISO date strings become
lists of `Date` values (the configuration invariant guarantees every stored
string is a valid `YYYY-MM-DD` date, and formatting valid dates is
injective, so string membership coincides with `Date` membership), floats
become exact rationals, and all external calls (Jira / Tempo HTTP clients)
become explicit parameters recording what the remote systems would return,
with creations and deletions assumed to succeed.
-/

namespace Tempo

/-! ## Gregorian calendar model

Mirrors the parts of Python's `datetime.date` that the source relies on:
construction validity (`date(year, month, day)` raising `ValueError`),
ordering, `weekday()` (Monday = 0 .. Sunday = 6), `timedelta(days=1)`
stepping, and `calendar.monthrange(year, month)[1]`. -/

/-- A calendar date, as Python's `datetime.date` triple. -/
structure Date where
  year : Nat
  month : Nat
  day : Nat
  deriving Repr, DecidableEq

/-- Gregorian leap-year rule (as used by `datetime` / `calendar`). -/
def isLeapYear (y : Nat) : Bool :=
  (y % 4 == 0 && y % 100 != 0) || y % 400 == 0

/-- Number of days in a month; `calendar.monthrange(y, m)[1]`. -/
def daysInMonth (y m : Nat) : Nat :=
  if m = 2 then (if isLeapYear y then 29 else 28)
  else if m = 4 ∨ m = 6 ∨ m = 9 ∨ m = 11 then 30
  else 31

/-- Validity of a `(year, month, day)` triple: exactly the triples Python's
`date(year, month, day)` accepts (with years in `datetime`'s range). -/
def Date.valid (d : Date) : Prop :=
  1 ≤ d.month ∧ d.month ≤ 12 ∧ 1 ≤ d.day ∧ d.day ≤ daysInMonth d.year d.month
    ∧ 1 ≤ d.year

instance (d : Date) : Decidable d.valid := by
  unfold Date.valid; infer_instance

/-- Days contributed by the complete years before year `y`. -/
def daysBeforeYear (y : Nat) : Nat :=
  let p := y - 1
  365 * p + p / 4 - p / 100 + p / 400

/-- Days contributed by the complete months before month `m` of year `y`. -/
def daysBeforeMonth (y m : Nat) : Nat :=
  (List.range (m - 1)).foldl (fun acc i => acc + daysInMonth y (i + 1)) 0

/-- Proleptic-Gregorian ordinal of a date (`date.toordinal` in Python:
`0001-01-01` has ordinal 1). -/
def Date.ordinal (d : Date) : Nat :=
  daysBeforeYear d.year + daysBeforeMonth d.year d.month + d.day

/-- Python's `date.weekday()`: Monday = 0, ..., Saturday = 5, Sunday = 6. -/
def Date.weekday (d : Date) : Nat :=
  (d.ordinal + 6) % 7

/-- Calendar order on dates. Python compares `date` objects by their
`(year, month, day)` triples, which is calendar order. -/
def Date.lt (a b : Date) : Prop :=
  a.year < b.year ∨ (a.year = b.year ∧ (a.month < b.month ∨
    (a.month = b.month ∧ a.day < b.day)))

instance : LT Date := ⟨Date.lt⟩

instance (a b : Date) : Decidable (a < b) := by
  show Decidable (Date.lt a b); unfold Date.lt; infer_instance

def Date.le (a b : Date) : Prop := a < b ∨ a = b

instance : LE Date := ⟨Date.le⟩

instance (a b : Date) : Decidable (a ≤ b) := by
  show Decidable (Date.le a b); unfold Date.le; infer_instance

/-- `d + timedelta(days=1)` on valid dates. -/
def Date.next (d : Date) : Date :=
  if d.day < daysInMonth d.year d.month then ⟨d.year, d.month, d.day + 1⟩
  else if d.month < 12 then ⟨d.year, d.month + 1, 1⟩
  else ⟨d.year + 1, 1, 1⟩

/-- `d + timedelta(days=k)`. -/
def Date.addDays (d : Date) (k : Nat) : Date :=
  Date.next^[k] d

/-- The inclusive run of `n` consecutive dates starting at `start`. -/
def dateRun (start : Date) : Nat → List Date
  | 0 => []
  | n + 1 => start :: dateRun start.next n

/-! ## ScheduleManager

Embeds `ScheduleManager` (`src/tempo_automation.py`): the per-user schedule
configuration plus the flattened org-holiday table and the optional
country-holiday library.  The Python sets of ISO date strings become lists
of `Date`s; the `date -> name` holiday dictionaries become association
lists. -/

/-- The schedule state consulted by `ScheduleManager.is_working_day`:
`working_days`, `pto_days`, `extra_holidays` (user-managed sets of dates),
the flattened org-holiday table `_org_holidays`, the country-holiday
library `_country_holidays` (`none` when the library is unavailable), and
`daily_hours`. -/
structure Schedule where
  dailyHours : ℚ
  workingDays : List Date
  ptoDays : List Date
  extraHolidays : List Date
  orgHolidays : List (Date × String)
  countryHolidays : Option (List (Date × String))
  deriving Repr

/-- Dictionary lookup `d[k]` for the `date -> name` holiday tables. -/
def holidayName (table : List (Date × String)) (d : Date) : Option String :=
  (table.find? (fun p => p.1 = d)).map Prod.snd

/-- `"Saturday"` / `"Sunday"` as computed at line 641 of the source. -/
def weekendDayName (d : Date) : String :=
  if d.weekday = 5 then "Saturday" else "Sunday"

/-- `ScheduleManager.is_working_day` (lines 613-657): classifies a date by
the seven rules in priority order, returning `(is_working, reason)`. -/
def isWorkingDay (s : Schedule) (d : Date) : Bool × String :=
  if d ∈ s.workingDays then (true, "Compensatory working day")
  else if d ∈ s.ptoDays then (false, "PTO")
  else if d.weekday ≥ 5 then (false, "Weekend (" ++ weekendDayName d ++ ")")
  else match holidayName s.orgHolidays d with
  | some name => (false, "Holiday: " ++ name)
  | none =>
    match s.countryHolidays with
    | some table =>
      match holidayName table d with
      | some name => (false, "Holiday: " ++ name)
      | none =>
        if d ∈ s.extraHolidays then (false, "Extra holiday")
        else (true, "Working day")
    | none =>
      if d ∈ s.extraHolidays then (false, "Extra holiday")
      else (true, "Working day")

/-- `ScheduleManager.count_working_days` (lines 668-681): the `while`
loop from `start` to `end` inclusive runs once per date in the range,
i.e. `end.ordinal + 1 - start.ordinal` times (zero when `end < start`). -/
def countWorkingDays (s : Schedule) (start stop : Date) : Nat :=
  ((dateRun start (stop.ordinal + 1 - start.ordinal)).filter
    (fun d => (isWorkingDay s d).1)).length

/-- `ScheduleManager.get_expected_hours` (lines 683-685). -/
def getExpectedHours (s : Schedule) (start stop : Date) : ℚ :=
  (countWorkingDays s start stop : ℚ) * s.dailyHours

/-! ## Hour allocation (`_log_overhead_hours`, lines 2482-2579)

Python floats become exact rationals; `int(x)` is truncation toward zero.
Booking creation always succeeds in this model, so the created worklogs
are exactly the allocations with positive seconds. -/

/-- Python `int(x)` on a rational: truncation toward zero. -/
def truncQ (q : ℚ) : ℤ :=
  if 0 ≤ q then ⌊q⌋ else ⌈q⌉

/-- `int(daily_hours * 3600)` (lines 1949, 2146): the daily target in
seconds. -/
def dailySeconds (dailyHours : ℚ) : ℤ :=
  truncQ (dailyHours * 3600)

/-- An overhead story dictionary: `{issue_key, summary?, hours?}`.
Optional fields model keys that may be absent from the Python dict. -/
structure Story where
  issue_key : String
  summary : Option String
  hours : Option ℚ
  deriving Repr, DecidableEq

/-- `story.get('hours', 0)`. -/
def Story.getHours (s : Story) : ℚ := s.hours.getD 0

/-- `story.get('summary', story['issue_key'])`. -/
def Story.getSummary (s : Story) : String := s.summary.getD s.issue_key

/-- The in-place mutation `s['hours'] = 1` (line 2536). -/
def Story.setHoursOne (s : Story) : Story := { s with hours := some 1 }

/-- One worklog entry as returned by the Jira client / appended to the
`created` lists: `{issue_key, issue_summary, time_spent_seconds}`. -/
structure Worklog where
  issue_key : String
  issue_summary : String
  time_spent_seconds : ℤ
  deriving Repr, DecidableEq

/-- The equal split used at lines 2545-2552, 2290-2312 and 3464-3472:
`per_ticket = total // num`, `remainder = total - per_ticket * num`, every
index gets `per_ticket` and the last index additionally gets `remainder`
(`//` is Python floor division). -/
def equalSplit (total : ℤ) (n : Nat) : List ℤ :=
  let perTicket := Int.fdiv total n
  let remainder := total - perTicket * n
  (List.range n).map (fun i => perTicket + if i = n - 1 then remainder else 0)

/-- The rounding fix-up of lines 2540-2544: if the allocations do not sum
to `total`, add the difference to the last allocation. -/
def fixLastAllocation (allocations : List (Story × ℤ)) (total : ℤ) :
    List (Story × ℤ) :=
  let allocated := (allocations.map Prod.snd).sum
  if allocations ≠ [] ∧ allocated ≠ total then
    allocations.dropLast ++
      (allocations.getLast?.map
        (fun last => [(last.1, last.2 + total - allocated)])).getD []
  else allocations

/-- Lines 2524-2552 of `_log_overhead_hours`: compute the per-story
allocations for the given distribution mode, together with the story list
after the side effect of the custom branch (which, when the configured
weights sum to a non-positive value, sets every story's `hours` to 1 in
place before computing ratios).  The caller guarantees `stories` is
non-empty (line 2510 substitutes a fallback otherwise), so the `single`
branch's `stories[0]` is total here with an unreachable `[]` case. -/
def allocateStories (stories : List Story) (distribution : String)
    (total : ℤ) : List (Story × ℤ) × List Story :=
  if distribution = "single" then
    (match stories with
     | [] => []
     | s :: _ => [(s, total)], stories)
  else if distribution = "custom" then
    let totalConfigured := (stories.map Story.getHours).sum
    if totalConfigured ≤ 0 then
      let stories' := stories.map Story.setHoursOne
      let allocations := stories'.map
        (fun s => (s, truncQ (total * (s.getHours / (stories.length : ℚ)))))
      (fixLastAllocation allocations total, stories')
    else
      let allocations := stories.map
        (fun s => (s, truncQ (total * (s.getHours / totalConfigured))))
      (fixLastAllocation allocations total, stories)
  else
    (stories.zip (equalSplit total stories.length), stories)

/-- Lines 2554-2579: attempt a booking for every allocation with positive
seconds (`if seconds <= 0: continue`); with every creation succeeding the
created worklogs are exactly those allocations. -/
def createdFromAllocations (allocations : List (Story × ℤ)) : List Worklog :=
  (allocations.filter (fun a => 0 < a.2)).map
    (fun a => ⟨a.1.issue_key, a.1.getSummary, a.2⟩)

/-! ## Overhead configuration -/

/-- The `current_pi` section of the overhead configuration.  Missing keys
are modelled by `""` / `none` / `[]` (matching the Python `.get` defaults
and truthiness checks on them). -/
structure PiConfig where
  pi_identifier : String
  pi_end_date : Option Date
  stories : List Story
  distribution : Option String
  deriving Repr, DecidableEq

/-- The `overhead` section of the configuration.  `planning_stories` /
`planning_distribution` flatten `planning_pi.stories` /
`planning_pi.distribution` (absent section = `[]` / `none`). -/
structure OhConfig where
  current_pi : PiConfig
  planning_stories : List Story
  planning_distribution : Option String
  pto_story_key : String
  fallback_issue_key : String
  project_prefix : Option String
  deriving Repr, DecidableEq

/-- `oh.get('project_prefix', 'OVERHEAD-')` (line 2142). -/
def OhConfig.ohPrefix (oh : OhConfig) : String :=
  oh.project_prefix.getD "OVERHEAD-"

/-- `_is_overhead_configured` (lines 2399-2406):
`bool(current_pi.get('pi_identifier') and current_pi.get('stories'))`. -/
def isOverheadConfigured (oh : OhConfig) : Bool :=
  oh.current_pi.pi_identifier ≠ "" && oh.current_pi.stories ≠ []

/-- The result of `_log_overhead_hours` in this model: the created
worklogs, the overhead configuration afterwards (the custom-mode weight
mutation aliases `current_pi.stories` when the caller passed no explicit
story list), and — when the caller did pass its own list — that list after
the possible in-place mutation. -/
structure LogOverheadResult where
  created : List Worklog
  ohAfter : OhConfig
  storiesAfter : Option (List Story)
  deriving Repr

/-- `_log_overhead_hours` (lines 2482-2579).  Resolves the story list and
distribution mode from the arguments and the configuration (lines
2499-2522, including the single-story fallback), computes the allocations,
and books one worklog per positive allocation, all creations
succeeding. -/
def logOverheadHours (oh : OhConfig) (total : ℤ)
    (storiesArg : Option (List Story)) (distArg : Option String) :
    LogOverheadResult :=
  let stories := storiesArg.getD oh.current_pi.stories
  let distribution :=
    match distArg with
    | some d => d
    | none =>
      match storiesArg with
      | none => oh.current_pi.distribution.getD "equal"
      | some _ => "equal"
  if stories = [] then
    if oh.fallback_issue_key ≠ "" then
      let fb := oh.fallback_issue_key
      let (allocations, _) :=
        allocateStories [⟨fb, some fb, none⟩] "single" total
      ⟨createdFromAllocations allocations, oh, storiesArg⟩
    else ⟨[], oh, storiesArg⟩
  else
    let res := allocateStories stories distribution total
    match storiesArg with
    | none =>
      ⟨createdFromAllocations res.1,
        { oh with current_pi := { oh.current_pi with stories := res.2 } },
        none⟩
    | some _ =>
      ⟨createdFromAllocations res.1, oh, some res.2⟩

/-! ## PI identifier parsing (`_parse_pi_end_date`, lines 2408-2438)

The regular expression `PI\.(\d{2})\.(\d+)\.([A-Z]{3})\.(\d{1,2})` is
applied with `re.match`, i.e. anchored at the start of the input but not
at the end.  The direct parser below reproduces its backtracking
semantics: `\d{2}` and `[A-Z]{3}` are fixed-width; `\d+` is a maximal
digit run (shrinking it cannot help since the following literal `.` is not
a digit); `\d{1,2}` greedily takes a second digit when available and
whatever follows the match is ignored. -/

/-- Numeric value of a decimal digit character. -/
def digitVal (c : Char) : Nat := c.toNat - '0'.toNat

/-- Maximal digit prefix of a character list, with the remainder. -/
def spanDigits : List Char → List Char × List Char
  | [] => ([], [])
  | c :: cs =>
    if c.isDigit then
      let (ds, r) := spanDigits cs
      (c :: ds, r)
    else ([], c :: cs)

/-- The `month_map` dictionary of lines 2425-2429. -/
def monthOfAbbrev (m : String) : Option Nat :=
  if m = "JAN" then some 1 else if m = "FEB" then some 2
  else if m = "MAR" then some 3 else if m = "APR" then some 4
  else if m = "MAY" then some 5 else if m = "JUN" then some 6
  else if m = "JUL" then some 7 else if m = "AUG" then some 8
  else if m = "SEP" then some 9 else if m = "OCT" then some 10
  else if m = "NOV" then some 11 else if m = "DEC" then some 12
  else none

/-- Final step of `_parse_pi_end_date`: month-name lookup, year
`2000 + yy`, and `date(year, month, day)` validity (lines 2424-2438). -/
def piDateOf (yy : Nat) (mon : String) (dd : Nat) : Option Date :=
  match monthOfAbbrev mon with
  | none => none
  | some month =>
    let d : Date := ⟨2000 + yy, month, dd⟩
    if d.valid then some d else none

/-- `_parse_pi_end_date` (lines 2408-2438). -/
def parsePiEndDate (s : String) : Option Date :=
  match s.data with
  | 'P' :: 'I' :: '.' :: rest =>
    match rest with
    | a :: b :: '.' :: rest2 =>
      if a.isDigit && b.isDigit then
        match spanDigits rest2 with
        | (ds, '.' :: rest3) =>
          if ds = [] then none
          else
            match rest3 with
            | m1 :: m2 :: m3 :: '.' :: rest4 =>
              if m1.isUpper && m2.isUpper && m3.isUpper then
                match rest4 with
                | d1 :: tail =>
                  if d1.isDigit then
                    let dd :=
                      match tail with
                      | d2 :: _ =>
                        if d2.isDigit then digitVal d1 * 10 + digitVal d2
                        else digitVal d1
                      | [] => digitVal d1
                    piDateOf (digitVal a * 10 + digitVal b)
                      (String.mk [m1, m2, m3]) dd
                  else none
                | [] => none
              else none
            | _ => none
        | (_, _) => none
      else none
    | _ => none
  | _ => none

/-! ## Planning week (`_is_planning_week`, lines 2440-2480) -/

/-- The `while working_count < 5` loop of lines 2462-2476, with the
current date carried as the offset `k` from `pi_end` (`current =
pi_end + k`).  After examining a day the loop advances and aborts with
`False` as soon as the new offset exceeds 14; the fuel argument is a
strictly decreasing counter that the entry call (`fuel = 15`, `k = 1`)
can never exhaust before that abort fires. -/
def planningScan (sched : Schedule) (piEnd : Date) :
    Nat → Nat → Nat → Option Date → Option Date
  | 0, _, _, _ => none
  | fuel + 1, k, w, p =>
    if w ≥ 5 then p
    else
      let d := piEnd.addDays k
      let isw := (isWorkingDay sched d).1
      let w' := if isw then w + 1 else w
      let p' := if isw then some d else p
      if k + 1 > 14 then none
      else planningScan sched piEnd fuel (k + 1) w' p'

/-- Lines 2448-2453: the PI end date is the stored `pi_end_date` when
non-empty, else the date parsed from the PI identifier. -/
def resolvePiEndDate (pi : PiConfig) : Option Date :=
  match pi.pi_end_date with
  | some e => some e
  | none => parsePiEndDate pi.pi_identifier

/-- `_is_planning_week` (lines 2440-2480): resolve the PI end date, reject
dates on or before it, then scan for the 5th working day and test
`pi_end < target <= planning_end`. -/
def isPlanningWeek (sched : Schedule) (oh : OhConfig) (target : Date) :
    Bool :=
  match resolvePiEndDate oh.current_pi with
  | none => false
  | some piEnd =>
    if target ≤ piEnd then false
    else
      match planningScan sched piEnd 15 1 0 none with
      | none => false
      | some planningEnd => decide (piEnd < target ∧ target ≤ planningEnd)

/-- The 5th working day within the `days` calendar days following
`piEnd`, if one exists there.  `boundedFifthWorkingDay sched piEnd 14`
renders the specification's planning-window endpoint (the safety bound
aborts only when more than 14 calendar days would elapse without five
working days); the code's scan turns out to realise
`boundedFifthWorkingDay sched piEnd 13`. -/
def boundedFifthWorkingDay (sched : Schedule) (piEnd : Date)
    (days : Nat) : Option Date :=
  ((dateRun piEnd.next days).filter (fun d => (isWorkingDay sched d).1)).get? 4

/-! ## Daily reconciliation (`_auto_log_jira_worklogs`, lines 2132-2343)

External behaviour is modelled explicitly: `get_my_worklogs` returns the
current Jira worklog list for the date (the mutable state), Tempo mirrors
every Jira worklog (Jira worklogs sync to Tempo) so the Tempo total is the
Jira total plus a fixed amount of manual Tempo-only seconds, deletions and
creations succeed, and `get_my_active_issues` returns a fixed list. -/

/-- An active Jira issue as returned by `get_my_active_issues` /
`get_issues_in_status_on_date`. -/
structure Issue where
  issue_key : String
  issue_summary : String
  deriving Repr, DecidableEq

/-- The equal split across a ticket list, booking one worklog per ticket —
lines 2290-2339 (`_auto_log_jira_worklogs`, across the active issues) and
lines 3464-3493 (`_backfill_day`, across the unlogged issues) perform this
same computation: `per_ticket = total // n` to every ticket, the remainder
added to the last, one `create_worklog` call per ticket with no guard
against zero-second amounts.  All creations succeed in this model. -/
def ticketSplitWorklogs (issues : List Issue) (total : ℤ) : List Worklog :=
  (issues.zip (equalSplit total issues.length)).map
    (fun p => Worklog.mk p.1.issue_key p.1.issue_summary p.2)

/-- The external world of one daily sync, fixed across runs. -/
structure SyncEnv where
  schedule : Schedule
  activeIssues : List Issue
  tempoExtraSeconds : ℤ
  targetDate : Date

/-- The mutable state a daily sync touches: the user's Jira worklogs on
the target date and the overhead configuration (whose story weights the
custom allocation can mutate). -/
structure SyncState where
  jira : List Worklog
  oh : OhConfig
  deriving Repr, DecidableEq

/-- The partition of the date's Jira worklogs by the overhead project
prefix (`wl.get('issue_key', '').startswith(oh_prefix)`, lines
2156-2164): the entries kept by `prefFilter` are the overhead ones. -/
def strStartsWith (pref s : String) : Bool :=
  List.isPrefixOf pref.data s.data

def prefFilter (pref : String) (jira : List Worklog) : List Worklog :=
  jira.filter (fun wl => strStartsWith pref wl.issue_key)

/-- The manual-Tempo-entries pseudo-worklog appended to
`overhead_result` when `tempo_only_seconds > 0` (lines 2227-2232), with
`tempo_only_seconds = max(0, tempo_total - jira_total)` (line 2176) and
the Tempo total modelled as the Jira total plus the fixed
`tempoExtraSeconds`. -/
def manualTempoEntry (env : SyncEnv) (st : SyncState) : List Worklog :=
  let jiraTotal := (st.jira.map Worklog.time_spent_seconds).sum
  let tempoOnly := max 0 (jiraTotal + env.tempoExtraSeconds - jiraTotal)
  if tempoOnly > 0 then
    [⟨"OVERHEAD (Tempo)", "Manual Tempo entries", tempoOnly⟩]
  else []

/-- `remaining_seconds = total_seconds - overhead_seconds` (line 2219),
with `overhead_seconds = jira_oh_seconds + tempo_only_seconds` (lines
2176-2182). -/
def autoLogRemaining (env : SyncEnv) (st : SyncState) : ℤ :=
  dailySeconds env.schedule.dailyHours -
    (((prefFilter st.oh.ohPrefix st.jira).map
        Worklog.time_spent_seconds).sum +
      max 0 ((st.jira.map Worklog.time_spent_seconds).sum +
        env.tempoExtraSeconds -
        (st.jira.map Worklog.time_spent_seconds).sum))

/-- `_auto_log_jira_worklogs` (lines 2132-2343) as a state transition:
partition the date's Jira worklogs by the overhead prefix, delete the
non-overhead ones, compute the manual-Tempo-only seconds and the remaining
budget, and branch: already complete / planning week / overhead fallback
when no active issue exists / equal split across the active issues.
Returns the new state and the list the Python function returns
(`overhead_result + created`). -/
def autoLogJiraWorklogs (env : SyncEnv) (st : SyncState) :
    SyncState × List Worklog :=
  let jiraOverhead := prefFilter st.oh.ohPrefix st.jira
  let jiraLeft := jiraOverhead
  let overheadResult := jiraOverhead ++ manualTempoEntry env st
  let remaining := autoLogRemaining env st
  if remaining ≤ 0 then (⟨jiraLeft, st.oh⟩, overheadResult)
  else if isPlanningWeek env.schedule st.oh env.targetDate then
    if st.oh.planning_stories = [] then
      let r := logOverheadHours st.oh remaining none none
      (⟨jiraLeft ++ r.created, r.ohAfter⟩, overheadResult ++ r.created)
    else
      let r := logOverheadHours st.oh remaining (some st.oh.planning_stories)
        st.oh.planning_distribution
      (⟨jiraLeft ++ r.created,
        { st.oh with planning_stories :=
            r.storiesAfter.getD st.oh.planning_stories }⟩,
       overheadResult ++ r.created)
  else if env.activeIssues = [] then
    if isOverheadConfigured st.oh then
      let r := logOverheadHours st.oh remaining none none
      (⟨jiraLeft ++ r.created, r.ohAfter⟩, overheadResult ++ r.created)
    else (⟨jiraLeft, st.oh⟩, overheadResult)
  else
    let created := ticketSplitWorklogs env.activeIssues remaining
    (⟨jiraLeft ++ created, st.oh⟩, overheadResult ++ created)

/-! ## PTO-day overhead sync and the daily guard (`sync_daily`,
lines 1940-2096) -/

/-- `_sync_pto_overhead` (lines 1940-2016): if the existing Jira seconds
already reach the daily target, change nothing; otherwise book the
remainder via `_log_overhead_hours`, on the configured PTO story in single
mode when one is configured. -/
def syncPtoOverhead (env : SyncEnv) (st : SyncState) :
    SyncState × List Worklog :=
  let total := dailySeconds env.schedule.dailyHours
  let existingSeconds := (st.jira.map Worklog.time_spent_seconds).sum
  if existingSeconds ≥ total then (st, st.jira)
  else
    let remaining := total - existingSeconds
    let ptoKey := st.oh.pto_story_key
    let r :=
      if ptoKey ≠ "" then
        logOverheadHours st.oh remaining
          (some [⟨ptoKey, some ptoKey, none⟩]) (some "single")
      else logOverheadHours st.oh remaining none none
    (⟨st.jira ++ r.created, r.ohAfter⟩, r.created)

/-- How one `sync_daily` run terminated. -/
inductive SyncOutcome where
  | ptoOverheadSync (created : List Worklog)
  | skippedNotConfigured (reason : String)
  | skippedNonWorking (reason : String)
  | autoLogged (worklogs : List Worklog)
  | manualPath
  deriving Repr, DecidableEq

/-- `sync_daily` (lines 2018-2096): the schedule guard of lines 2028-2058
— note that line 2032 computes `is_off_day = reason != "Weekend"` while
weekend classifications carry the reason `"Weekend (Saturday)"` /
`"Weekend (Sunday)"` — followed by the role dispatch.  The non-developer
`_sync_manual_activities` path is outside the claims and is left
abstract. -/
def syncDaily (role : String) (env : SyncEnv) (st : SyncState) :
    SyncState × SyncOutcome :=
  let cls := isWorkingDay env.schedule env.targetDate
  if cls.1 then
    if role = "developer" then
      let r := autoLogJiraWorklogs env st
      (r.1, .autoLogged r.2)
    else (st, .manualPath)
  else
    let isOffDay := cls.2 ≠ "Weekend"
    if isOffDay ∧ role = "developer" then
      if isOverheadConfigured st.oh then
        let r := syncPtoOverhead env st
        (r.1, .ptoOverheadSync r.2)
      else (st, .skippedNotConfigured cls.2)
    else (st, .skippedNonWorking cls.2)

/-! ## Backfill (`_backfill_day`, lines 3408-3496) -/

/-- `_backfill_day` with the Jira client present and every creation
succeeding: filter the issues that were active on the date down to the
ones not already logged; if none remain, fall back to overhead stories
when configured (method `"overhead"`) or report method `"none"`;
otherwise split the gap equally across the unlogged issues — booking one
worklog per issue, with no check against zero-second allocations — and
report method `"stories"`.  Returns the created worklogs, the method tag,
and the overhead configuration afterwards. -/
def backfillDay (issuesOnDate : List Issue) (oh : OhConfig)
    (gapSeconds : ℤ) (existingKeys : List String) :
    List Worklog × String × OhConfig :=
  let unlogged := issuesOnDate.filter (fun i => i.issue_key ∉ existingKeys)
  if unlogged = [] then
    if isOverheadConfigured oh then
      let r := logOverheadHours oh gapSeconds none none
      (r.created, "overhead", r.ohAfter)
    else ([], "none", oh)
  else
    (ticketSplitWorklogs unlogged gapSeconds, "stories", oh)

/-! ## Monthly submission (`submit_timesheet`, lines 3098-3173) -/

/-- The external facts one `submit_timesheet` run depends on. -/
structure SubmitEnv where
  today : Date
  schedule : Schedule
  monthWorklogs : List Worklog
  jiraAvailable : Bool
  notifyOnShortfall : Bool
  tempoSubmitSucceeds : Bool

/-- Observable effects of one `submit_timesheet` run. -/
structure SubmitResult where
  submissionAttempted : Bool
  shortfallNotified : Bool
  submitted : Bool
  confirmationSent : Bool
  deriving Repr, DecidableEq

/-- `submit_timesheet` (lines 3098-3173): skip unless today is the last
calendar day of the month; compare expected hours (working days ×
daily hours, over the 1st..today) with the actual Jira hours; send a
shortfall notification when the shortfall exceeds 0.5h (and
`notify_on_shortfall` is enabled, line 3503); then in every case call
`tempo_client.submit_timesheet`, sending a confirmation on success. -/
def submitTimesheet (env : SubmitEnv) : SubmitResult :=
  let lastDay := daysInMonth env.today.year env.today.month
  if env.today.day ≠ lastDay then ⟨false, false, false, false⟩
  else
    let firstDay : Date := ⟨env.today.year, env.today.month, 1⟩
    let expected := getExpectedHours env.schedule firstDay env.today
    let actual : ℚ :=
      if env.jiraAvailable then
        ((env.monthWorklogs.map Worklog.time_spent_seconds).sum : ℚ) / 3600
      else 0
    let shortfall := expected - actual
    let notified := decide (shortfall > 1/2) && env.notifyOnShortfall
    ⟨true, notified, env.tempoSubmitSucceeds, env.tempoSubmitSucceeds⟩

/-! ## Specification-side definitions and concrete fixtures -/

/-- Claim-side rendering of "a string exactly of the form
`PI.<YY>.<N>.<MON3>.<DD>`" (two-digit year, one-or-more-digit index,
three uppercase letters, one or two day digits, **nothing after**) — the
shape the specification describes for `parsePeriodEnd`, used to compare
against the code's anchored-at-start-only matching. -/
def claimPiExactForm (s : String) : Bool :=
  match s.data with
  | 'P' :: 'I' :: '.' :: a :: b :: '.' :: rest2 =>
    a.isDigit && b.isDigit &&
    (match spanDigits rest2 with
     | (ds, '.' :: m1 :: m2 :: m3 :: '.' :: rest4) =>
       !ds.isEmpty && m1.isUpper && m2.isUpper && m3.isUpper &&
       (match rest4 with
        | [d1] => d1.isDigit
        | [d1, d2] => d1.isDigit && d2.isDigit
        | _ => false)
     | _ => false)
  | _ => false

/-- A schedule with no overrides: `daily_hours = 8`, every weekday
working, the country-holiday library unavailable. -/
def plainSched : Schedule := ⟨8, [], [], [], [], none⟩

/-- Saturday 2026-01-10, used by several concrete scenarios. -/
def saturday : Date := ⟨2026, 1, 10⟩

/-- A schedule putting `saturday` in all five override/holiday sets at
once (and it is a weekend day), so every classification rule matches. -/
def c7Sched : Schedule :=
  ⟨8, [saturday], [saturday], [saturday], [(saturday, "Org Day")],
    some [(saturday, "Country Day")]⟩

/-- An overhead configuration with a current PI, one overhead story and a
PTO story configured. -/
def c2Oh : OhConfig :=
  { current_pi :=
      ⟨"PI.26.1.MAR.20", none, [⟨"OVERHEAD-123", some "Overhead", none⟩],
        some "equal"⟩
    planning_stories := []
    planning_distribution := none
    pto_story_key := "OVERHEAD-PTO"
    fallback_issue_key := ""
    project_prefix := none }

/-- A Saturday sync for a developer with overhead configured and no
existing worklogs. -/
def c2Env : SyncEnv := ⟨plainSched, [], 0, saturday⟩

/-- Empty Jira state with `c2Oh`. -/
def c2State : SyncState := ⟨[], c2Oh⟩

/-- An overhead section with nothing configured at all. -/
def emptyOh : OhConfig := ⟨⟨"", none, [], none⟩, [], none, "", "", none⟩

/-- A working Monday with two active issues, one of which carries the
overhead project prefix. -/
def c4Env : SyncEnv :=
  ⟨plainSched, [⟨"OVERHEAD-1", "Overhead story"⟩, ⟨"PROJ-2", "Feature work"⟩],
    0, ⟨2026, 1, 12⟩⟩

/-- Empty Jira state with no overhead configured. -/
def c4State : SyncState := ⟨[], emptyOh⟩

/-- A working Monday with a single active issue carrying no overhead
prefix. -/
def c4wEnv : SyncEnv :=
  ⟨plainSched, [⟨"PROJ-9", "Feature"⟩], 0, ⟨2026, 1, 12⟩⟩

/-- A schedule on which the five working days after Monday 2026-01-05 are
2026-01-15 .. 2026-01-19: the nine days 01-06 .. 01-14 are PTO or
weekend, and the weekend days 01-17 / 01-18 are compensatory working
days.  The 5th working day lands exactly 14 calendar days after the PI
end. -/
def c9Sched : Schedule :=
  { dailyHours := 8
    workingDays := [⟨2026, 1, 17⟩, ⟨2026, 1, 18⟩]
    ptoDays := [⟨2026, 1, 6⟩, ⟨2026, 1, 7⟩, ⟨2026, 1, 8⟩, ⟨2026, 1, 9⟩,
      ⟨2026, 1, 12⟩, ⟨2026, 1, 13⟩, ⟨2026, 1, 14⟩]
    extraHolidays := []
    orgHolidays := []
    countryHolidays := none }

/-- An overhead configuration whose current PI ends on Monday
2026-01-05. -/
def c9Oh : OhConfig :=
  { current_pi :=
      ⟨"PI.25.4.JAN.05", some ⟨2026, 1, 5⟩,
        [⟨"OVERHEAD-123", some "Overhead", none⟩], none⟩
    planning_stories := []
    planning_distribution := none
    pto_story_key := ""
    fallback_issue_key := ""
    project_prefix := none }

/-- A month-end submission run with no hours logged: the last calendar
day of January 2026, an empty worklog list, notifications enabled and a
succeeding Tempo submission call. -/
def c1Env : SubmitEnv := ⟨⟨2026, 1, 31⟩, plainSched, [], true, true, true⟩

/-! ## Basic lemmas about the calendar order -/

theorem date_not_le {a b : Date} : ¬ (a ≤ b) ↔ b < a := by
  obtain ⟨ay, am, ad⟩ := a
  obtain ⟨cy, cm, cd⟩ := b
  show ¬ (Date.lt ⟨ay, am, ad⟩ ⟨cy, cm, cd⟩ ∨
      (⟨ay, am, ad⟩ : Date) = ⟨cy, cm, cd⟩) ↔
    Date.lt ⟨cy, cm, cd⟩ ⟨ay, am, ad⟩
  unfold Date.lt
  simp only [Date.mk.injEq]
  omega

theorem date_lt_asymm {a b : Date} (h : a < b) : ¬ (b < a) := by
  intro h2
  have h3 : ¬ (a ≤ b) := date_not_le.mpr h2
  exact h3 (Or.inl h)

/-! ## C7: classification priority order -/

/-- C7: `is_working_day` evaluates its seven rules in strict priority
order, stopping at the first match: working-day override ("Compensatory
working day"), PTO, weekend, org holiday, country holiday (skipped when
the library is unavailable), extra holiday, default working day.  In
particular a date in every category at once classifies as a compensatory
working day. -/
theorem classify_priority_order (s : Schedule) (d : Date) :
    (d ∈ s.workingDays →
      isWorkingDay s d = (true, "Compensatory working day")) ∧
    (d ∉ s.workingDays → d ∈ s.ptoDays →
      isWorkingDay s d = (false, "PTO")) ∧
    (d ∉ s.workingDays → d ∉ s.ptoDays → 5 ≤ d.weekday →
      isWorkingDay s d = (false, "Weekend (" ++ weekendDayName d ++ ")")) ∧
    (∀ name, d ∉ s.workingDays → d ∉ s.ptoDays → d.weekday < 5 →
      holidayName s.orgHolidays d = some name →
      isWorkingDay s d = (false, "Holiday: " ++ name)) ∧
    (∀ table name, d ∉ s.workingDays → d ∉ s.ptoDays → d.weekday < 5 →
      holidayName s.orgHolidays d = none →
      s.countryHolidays = some table → holidayName table d = some name →
      isWorkingDay s d = (false, "Holiday: " ++ name)) ∧
    (d ∉ s.workingDays → d ∉ s.ptoDays → d.weekday < 5 →
      holidayName s.orgHolidays d = none →
      (∀ table, s.countryHolidays = some table → holidayName table d = none) →
      d ∈ s.extraHolidays → isWorkingDay s d = (false, "Extra holiday")) ∧
    (d ∉ s.workingDays → d ∉ s.ptoDays → d.weekday < 5 →
      holidayName s.orgHolidays d = none →
      (∀ table, s.countryHolidays = some table → holidayName table d = none) →
      d ∉ s.extraHolidays → isWorkingDay s d = (true, "Working day")) := by
  refine ⟨?_, ?_, ?_, ?_, ?_, ?_, ?_⟩
  · intro h1
    simp [isWorkingDay, h1]
  · intro h1 h2
    simp [isWorkingDay, h1, h2]
  · intro h1 h2 h3
    simp [isWorkingDay, h1, h2, h3]
  · intro name h1 h2 h3 h4
    simp [isWorkingDay, h1, h2, h4, Nat.not_le.mpr h3]
  · intro table name h1 h2 h3 h4 h5 h6
    simp [isWorkingDay, h1, h2, h4, h5, h6, Nat.not_le.mpr h3]
  · intro h1 h2 h3 h4 h5 h6
    cases hco : s.countryHolidays with
    | none => simp [isWorkingDay, h1, h2, h4, hco, h6, Nat.not_le.mpr h3]
    | some table =>
      simp [isWorkingDay, h1, h2, h4, hco, h5 table hco, h6,
        Nat.not_le.mpr h3]
  · intro h1 h2 h3 h4 h5 h6
    cases hco : s.countryHolidays with
    | none => simp [isWorkingDay, h1, h2, h4, hco, h6, Nat.not_le.mpr h3]
    | some table =>
      simp [isWorkingDay, h1, h2, h4, hco, h5 table hco, h6,
        Nat.not_le.mpr h3]

/-- C7 witness: `saturday` lies in every override/holiday category of
`c7Sched` at once, and the compensatory working-day rule wins. -/
theorem classify_priority_order_witness :
    saturday ∈ c7Sched.workingDays ∧ saturday ∈ c7Sched.ptoDays ∧
    5 ≤ saturday.weekday ∧
    holidayName c7Sched.orgHolidays saturday = some "Org Day" ∧
    c7Sched.countryHolidays = some [(saturday, "Country Day")] ∧
    saturday ∈ c7Sched.extraHolidays ∧
    isWorkingDay c7Sched saturday = (true, "Compensatory working day") := by
  refine ⟨by decide, by decide, by decide, by decide, by decide, by decide, ?_⟩
  exact (classify_priority_order c7Sched saturday).1 (by decide)

/-! ## C2: the weekend guard of `sync_daily` -/

/-- C2: on Saturday 2026-01-10 the classifier reports the weekend reason
`"Weekend (Saturday)"`, yet `sync_daily` for a developer with overhead
configured takes the PTO-overhead path and books a full 8h worklog on the
PTO story — because line 2032 compares the reason against the literal
`"Weekend"` while the classifier produces `"Weekend (Saturday)"`, so the
weekend is treated as a PTO/holiday off-day instead of being skipped. -/
theorem dailySeconds_eight : dailySeconds 8 = 28800 := by
  unfold dailySeconds truncQ
  norm_num

theorem sync_daily_weekend_books_overhead :
    isWorkingDay plainSched saturday = (false, "Weekend (Saturday)") ∧
    syncDaily "developer" c2Env c2State =
      (⟨[⟨"OVERHEAD-PTO", "OVERHEAD-PTO", 28800⟩], c2Oh⟩,
        .ptoOverheadSync [⟨"OVERHEAD-PTO", "OVERHEAD-PTO", 28800⟩]) := by
  constructor
  · rfl
  · have h8 : dailySeconds c2Env.schedule.dailyHours = 28800 :=
      dailySeconds_eight
    simp only [syncDaily, syncPtoOverhead, autoLogJiraWorklogs, h8]
    decide

/-! ## C6: shape of the equal split -/

/-- An `equalSplit` always has one entry per target. -/
theorem equalSplit_length (total : ℤ) (n : Nat) :
    (equalSplit total n).length = n := by
  simp [equalSplit]

/-- C6: in the equal distribution every index receives
`⌊total / n⌋` and the last index additionally receives `total mod n`
(floor division and floor modulus, as Python's `//` and `%`); this is the
split both `_log_overhead_hours` in equal mode and the active-ticket /
backfill ticket loop produce. -/
theorem equal_split_shape :
    (∀ (total : ℤ) (n : Nat),
      equalSplit total n = (List.range n).map
        (fun i => if i = n - 1 then Int.fdiv total n + Int.fmod total n
          else Int.fdiv total n)) ∧
    (∀ (stories : List Story) (total : ℤ),
      (allocateStories stories "equal" total).1.map Prod.snd =
        equalSplit total stories.length) ∧
    (∀ (issues : List Issue) (total : ℤ),
      (ticketSplitWorklogs issues total).map Worklog.time_spent_seconds =
        equalSplit total issues.length) := by
  refine ⟨?_, ?_, ?_⟩
  · intro total n
    simp only [equalSplit]
    apply List.map_congr_left
    intro i _
    rw [Int.fmod_def]
    by_cases hi : i = n - 1
    · rw [if_pos hi, if_pos hi]
      ring
    · rw [if_neg hi, if_neg hi]
      ring
  · intro stories total
    simp only [allocateStories]
    rw [if_neg (by decide), if_neg (by decide)]
    exact List.map_snd_zip _ _ (le_of_eq (equalSplit_length total _))
  · intro issues total
    unfold ticketSplitWorklogs
    rw [List.map_map]
    exact List.map_snd_zip _ _ (le_of_eq (equalSplit_length total _))

/-! ## C10: the in-place weight mutation of the custom mode -/

/-- C10: in custom mode with a non-positive configured weight sum, the
allocation routine rewrites every story's `hours` field to 1 in place —
when the stories came from the configuration, the configuration's story
list itself is updated; whenever the weight sum is positive the input
stories come back unmodified. -/
theorem custom_weight_mutation (stories : List Story) (total : ℤ) :
    ((stories.map Story.getHours).sum ≤ 0 →
      (allocateStories stories "custom" total).2 =
        stories.map Story.setHoursOne) ∧
    (0 < (stories.map Story.getHours).sum →
      ∀ dist : String, (allocateStories stories dist total).2 = stories) ∧
    (∀ oh : OhConfig, oh.current_pi.stories = stories →
      oh.current_pi.distribution = some "custom" → stories ≠ [] →
      (stories.map Story.getHours).sum ≤ 0 →
      (logOverheadHours oh total none none).ohAfter.current_pi.stories =
        stories.map Story.setHoursOne) := by
  refine ⟨?_, ?_, ?_⟩
  · intro hsum
    simp [allocateStories, hsum]
  · intro hsum dist
    unfold allocateStories
    split_ifs with h1 h2
    · rfl
    · rw [if_neg (not_le.mpr hsum)]
    · rfl
  · intro oh hst hdist hne hsum
    simp only [logOverheadHours, Option.getD_none, Option.getD_some, hst,
      hdist]
    rw [if_neg hne]
    simp only [allocateStories, if_neg (by decide : ¬ ("custom" = "single")),
      if_pos rfl]
    simp [hsum]

/-! ## Allocation sum lemmas (toward C5) -/

theorem sum_filter_pos {l : List ℤ} (h : ∀ x ∈ l, 0 ≤ x) :
    (l.filter (fun x => 0 < x)).sum = l.sum := by
  induction l with
  | nil => rfl
  | cons x xs ih =>
    have hx := h x (List.mem_cons_self x xs)
    have hxs := fun y hy => h y (List.mem_cons_of_mem x hy)
    by_cases hpos : 0 < x
    · simp [List.filter_cons, hpos, ih hxs]
    · have hx0 : x = 0 := le_antisymm (not_lt.mp hpos) hx
      simp [List.filter_cons, hpos, ih hxs, hx0]

theorem createdFromAllocations_seconds (allocations : List (Story × ℤ)) :
    (createdFromAllocations allocations).map Worklog.time_spent_seconds =
      (allocations.map Prod.snd).filter (fun x => 0 < x) := by
  induction allocations with
  | nil => rfl
  | cons a l ih =>
    by_cases hpos : 0 < a.2
    · simp only [createdFromAllocations, List.filter_cons, List.map_cons]
      simp only [createdFromAllocations] at ih
      simp [hpos, ih]
    · simp only [createdFromAllocations, List.filter_cons, List.map_cons]
      simp only [createdFromAllocations] at ih
      simp [hpos, ih]

theorem fixLastAllocation_sum (a : List (Story × ℤ)) (total : ℤ)
    (ha : a ≠ []) :
    ((fixLastAllocation a total).map Prod.snd).sum = total := by
  by_cases heq : (a.map Prod.snd).sum = total
  · simp [fixLastAllocation, heq]
  · have hcond : a ≠ [] ∧ (a.map Prod.snd).sum ≠ total := ⟨ha, heq⟩
    simp only [fixLastAllocation, if_pos hcond,
      List.getLast?_eq_getLast_of_ne_nil ha, Option.map_some',
      Option.getD_some]
    have hsplit : a.dropLast ++ [a.getLast ha] = a :=
      List.dropLast_append_getLast ha
    have hsum : ((a.dropLast.map Prod.snd).sum + (a.getLast ha).2)
        = (a.map Prod.snd).sum := by
      conv_rhs => rw [← hsplit]
      simp
    simp only [List.map_append, List.sum_append, List.map_cons,
      List.map_nil, List.sum_cons, List.sum_nil]
    omega

theorem fixLastAllocation_nonneg (a : List (Story × ℤ)) (total : ℤ)
    (h1 : ∀ x ∈ a, 0 ≤ x.2) (h2 : (a.map Prod.snd).sum ≤ total) :
    ∀ x ∈ fixLastAllocation a total, 0 ≤ x.2 := by
  intro x hx
  simp only [fixLastAllocation] at hx
  split_ifs at hx with hcond
  · rcases List.mem_append.mp hx with hd | hl
    · exact h1 x (List.dropLast_subset a hd)
    · rw [List.getLast?_eq_getLast_of_ne_nil hcond.1, Option.map_some',
        Option.getD_some] at hl
      have hlast : 0 ≤ (a.getLast hcond.1).2 :=
        h1 _ (List.getLast_mem hcond.1)
      have hx2 := List.mem_singleton.mp hl
      subst hx2
      simp only []
      omega
  · exact h1 x hx

theorem equalSplit_sum (total : ℤ) (n : Nat) (hn : 0 < n) :
    (equalSplit total n).sum = total := by
  cases n with
  | zero => omega
  | succ m =>
    simp only [equalSplit, List.range_succ, List.map_append, List.sum_append,
      List.map_cons, List.map_nil, List.sum_cons, List.sum_nil,
      Nat.succ_sub_one]
    have h1 : List.map
        (fun i => Int.fdiv total (↑(m + 1)) +
          if i = m then total - Int.fdiv total (↑(m + 1)) * (↑(m + 1)) else 0)
        (List.range m) =
        List.map (fun _ => Int.fdiv total (↑(m + 1))) (List.range m) := by
      apply List.map_congr_left
      intro i hi
      rw [if_neg (by have := List.mem_range.mp hi; omega)]
      ring
    rw [h1, List.map_const', List.sum_replicate, List.length_range,
      nsmul_eq_mul, if_pos trivial]
    push_cast
    ring

theorem equalSplit_mem_nonneg (total : ℤ) (n : Nat) (ht : 0 ≤ total)
    (hn : 0 < n) : ∀ y ∈ equalSplit total n, 0 ≤ y := by
  intro y hy
  simp only [equalSplit, List.mem_map] at hy
  obtain ⟨i, _, rfl⟩ := hy
  have hfd : 0 ≤ Int.fdiv total n :=
    Int.fdiv_nonneg ht (by positivity)
  have hrem : 0 ≤ total - Int.fdiv total n * n := by
    rw [Int.fdiv_eq_ediv _ (by positivity : (0:ℤ) ≤ (n:ℤ))]
    have h := Int.emod_nonneg total (Int.natCast_ne_zero.mpr hn.ne.symm)
    rw [Int.emod_def, mul_comm] at h
    omega
  by_cases hi : i = n - 1 <;> simp [hi] <;> omega

theorem truncQ_nonneg {q : ℚ} (h : 0 ≤ q) : 0 ≤ truncQ q := by
  rw [truncQ, if_pos h]
  exact Int.floor_nonneg.mpr h

theorem truncQ_le {q : ℚ} (h : 0 ≤ q) : (truncQ q : ℚ) ≤ q := by
  rw [truncQ, if_pos h]
  exact Int.floor_le q

/-- The proportional shares of the custom mode: each entry is
nonnegative, and they sum to at most the total. -/
theorem custom_shares_bound (total : ℤ) (ht : 0 ≤ total) (ws : List ℚ)
    (W : ℚ) (hW : 0 < W) (hsum : ws.sum = W) (hnn : ∀ w ∈ ws, 0 ≤ w) :
    ((ws.map (fun w => truncQ ((total : ℚ) * (w / W)))).sum ≤ total) ∧
    (∀ x ∈ ws.map (fun w => truncQ ((total : ℚ) * (w / W))), 0 ≤ x) := by
  have hterm : ∀ w ∈ ws, 0 ≤ (total : ℚ) * (w / W) := by
    intro w hw
    have : 0 ≤ w / W := div_nonneg (hnn w hw) hW.le
    positivity
  constructor
  · have hcast : ((ws.map (fun w => truncQ ((total : ℚ) * (w / W)))).sum : ℚ)
        ≤ (ws.map (fun w => (total : ℚ) * (w / W))).sum := by
      rw [Int.cast_list_sum, List.map_map]
      apply List.sum_le_sum
      intro w hw
      exact truncQ_le (hterm w hw)
    have hmapeq : ws.map (fun w => (total : ℚ) * (w / W)) =
        ws.map (fun w => ((total : ℚ) / W) * w) := by
      apply List.map_congr_left
      intro w _
      ring
    have hqsum : (ws.map (fun w => (total : ℚ) * (w / W))).sum = total := by
      rw [hmapeq]
      have h := List.sum_map_mul_left ws (fun w => w) ((total : ℚ) / W)
      rw [h, List.map_id', hsum]
      field_simp
    have hfin : ((ws.map (fun w => truncQ ((total : ℚ) * (w / W)))).sum : ℚ)
        ≤ (total : ℚ) := hcast.trans_eq hqsum
    exact_mod_cast hfin
  · intro x hx
    simp only [List.mem_map] at hx
    obtain ⟨w, hw, rfl⟩ := hx
    exact truncQ_nonneg (hterm w hw)

/-- The custom-mode allocation line (2537-2539) keeps every share
nonnegative and their sum at most the total, whenever the weights are
nonnegative and divide by their exact sum. -/
theorem custom_alloc_line_bound (total : ℤ) (ht : 0 ≤ total)
    (S : List Story) (W : ℚ) (hW : 0 < W)
    (hsum : (S.map Story.getHours).sum = W)
    (hnn : ∀ s ∈ S, 0 ≤ s.getHours) :
    (((S.map (fun s => (s, truncQ ((total : ℚ) * (s.getHours / W))))).map
      Prod.snd).sum ≤ total) ∧
    (∀ x ∈ S.map (fun s => (s, truncQ ((total : ℚ) * (s.getHours / W)))),
      0 ≤ x.2) := by
  have hws : ∀ w ∈ S.map Story.getHours, 0 ≤ w := by
    intro w hw
    obtain ⟨s, hs, rfl⟩ := List.mem_map.mp hw
    exact hnn s hs
  have hbound := custom_shares_bound total ht (S.map Story.getHours) W hW
    hsum hws
  constructor
  · have hrw : (S.map (fun s => (s, truncQ ((total : ℚ) * (s.getHours / W))))).map
        Prod.snd = (S.map Story.getHours).map
          (fun w => truncQ ((total : ℚ) * (w / W))) := by
      simp [List.map_map, Function.comp]
    rw [hrw]
    exact hbound.1
  · intro x hx
    obtain ⟨s, hs, rfl⟩ := List.mem_map.mp hx
    have : 0 ≤ (total : ℚ) * (s.getHours / W) := by
      have h1 : 0 ≤ s.getHours / W := div_nonneg (hnn s hs) hW.le
      positivity
    exact truncQ_nonneg this

/-- Sum and nonnegativity of the allocations `_log_overhead_hours`
computes, for any distribution string (an unrecognised one falls into the
equal branch), a non-empty story list, a nonnegative total, and — in
custom mode — nonnegative configured weights. -/
theorem allocateStories_sum_nonneg (stories : List Story) (dist : String)
    (total : ℤ) (hne : stories ≠ []) (ht : 0 ≤ total)
    (hw : dist = "custom" → ∀ st ∈ stories, 0 ≤ st.getHours) :
    ((allocateStories stories dist total).1.map Prod.snd).sum = total ∧
    ∀ x ∈ (allocateStories stories dist total).1, 0 ≤ x.2 := by
  by_cases h1 : dist = "single"
  · cases stories with
    | nil => exact absurd rfl hne
    | cons s rest =>
      have hval : (allocateStories (s :: rest) dist total).1 = [(s, total)] := by
        simp [allocateStories, h1]
      rw [hval]
      refine ⟨by simp, ?_⟩
      intro x hx
      simp only [List.mem_singleton] at hx
      subst hx
      exact ht
  · by_cases h2 : dist = "custom"
    · by_cases h3 : (stories.map Story.getHours).sum ≤ 0
      · -- weights reset to 1, shares total/n each
        have hval : (allocateStories stories dist total).1 =
            fixLastAllocation ((stories.map Story.setHoursOne).map
              (fun s => (s, truncQ ((total : ℚ) *
                (s.getHours / (stories.length : ℚ)))))) total := by
          simp [allocateStories, h1, h2, h3]
        have hlen : (0 : ℚ) < (stories.length : ℚ) := by
          have := List.length_pos.mpr hne
          exact_mod_cast this
        have hsum1 : ((stories.map Story.setHoursOne).map Story.getHours).sum
            = (stories.length : ℚ) := by
          rw [List.map_map]
          have hconst : stories.map (Story.getHours ∘ Story.setHoursOne) =
              stories.map (fun _ => (1 : ℚ)) := by
            apply List.map_congr_left
            intro s _
            rfl
          rw [hconst, List.map_const', List.sum_replicate, nsmul_eq_mul,
            mul_one]
        have hnn1 : ∀ s ∈ stories.map Story.setHoursOne, 0 ≤ s.getHours := by
          intro s hs
          obtain ⟨s0, _, rfl⟩ := List.mem_map.mp hs
          show (0 : ℚ) ≤ (1 : ℚ)
          exact zero_le_one
        have hbd := custom_alloc_line_bound total ht
          (stories.map Story.setHoursOne) (stories.length : ℚ) hlen hsum1
          hnn1
        have hane : (stories.map Story.setHoursOne).map
            (fun s => (s, truncQ ((total : ℚ) *
              (s.getHours / (stories.length : ℚ))))) ≠ [] := by
          simpa using hne
        rw [hval]
        exact ⟨fixLastAllocation_sum _ total hane,
          fixLastAllocation_nonneg _ total hbd.2 hbd.1⟩
      · -- positive weight sum: proportional shares
        have hval : (allocateStories stories dist total).1 =
            fixLastAllocation (stories.map
              (fun s => (s, truncQ ((total : ℚ) *
                (s.getHours / (stories.map Story.getHours).sum))))) total := by
          simp [allocateStories, h1, h2, h3]
        have hWpos : (0 : ℚ) < (stories.map Story.getHours).sum :=
          lt_of_not_le h3
        have hbd := custom_alloc_line_bound total ht stories
          ((stories.map Story.getHours).sum) hWpos rfl (hw h2)
        have hane : stories.map
            (fun s => (s, truncQ ((total : ℚ) *
              (s.getHours / (stories.map Story.getHours).sum)))) ≠ [] := by
          simpa using hne
        rw [hval]
        exact ⟨fixLastAllocation_sum _ total hane,
          fixLastAllocation_nonneg _ total hbd.2 hbd.1⟩
    · -- equal mode (also the fallback for unrecognised strings)
      have hval : (allocateStories stories dist total).1 =
          stories.zip (equalSplit total stories.length) := by
        simp [allocateStories, h1, h2]
      rw [hval]
      constructor
      · rw [List.map_snd_zip _ _ (le_of_eq (equalSplit_length total _))]
        exact equalSplit_sum total _ (List.length_pos.mpr hne)
      · intro x hx
        obtain ⟨s, v⟩ := x
        have hv := (List.of_mem_zip hx).2
        exact equalSplit_mem_nonneg total _ ht (List.length_pos.mpr hne) v hv

/-- C5: for every distribution mode, non-empty target list and
nonnegative total (with the data-model invariant that custom mode carries
nonnegative weights), the allocations of `_log_overhead_hours` sum to the
total exactly — and so do the worklogs actually booked, since only
zero-second allocations are dropped. -/
theorem allocation_sum_invariant (stories : List Story) (dist : String)
    (total : ℤ) (hne : stories ≠ [])
    (hmode : dist = "single" ∨ dist = "equal" ∨ dist = "custom")
    (ht : 0 ≤ total)
    (hw : dist = "custom" → ∀ st ∈ stories, 0 ≤ st.getHours) :
    ((allocateStories stories dist total).1.map Prod.snd).sum = total ∧
    ((createdFromAllocations (allocateStories stories dist total).1).map
      Worklog.time_spent_seconds).sum = total := by
  have h := allocateStories_sum_nonneg stories dist total hne ht hw
  refine ⟨h.1, ?_⟩
  rw [createdFromAllocations_seconds, sum_filter_pos, h.1]
  intro x hx
  obtain ⟨a, ha, rfl⟩ := List.mem_map.mp hx
  exact h.2 a ha

/-- C5 witness: scenario D — custom weights 5 and 3 over 28800 seconds
book 18000 + 10800 = 28800. -/
theorem allocation_sum_invariant_witness :
    (([⟨"A", some "a", some 5⟩, ⟨"B", some "b", some 3⟩] : List Story) ≠ [])
    ∧ (0 : ℤ) ≤ 28800 ∧
    ((createdFromAllocations (allocateStories
      [⟨"A", some "a", some 5⟩, ⟨"B", some "b", some 3⟩] "custom" 28800).1).map
      Worklog.time_spent_seconds).sum = 28800 :=
  ⟨by decide, by decide,
    (allocation_sum_invariant
      [⟨"A", some "a", some 5⟩, ⟨"B", some "b", some 3⟩] "custom" 28800
      (by decide) (Or.inr (Or.inr rfl)) (by decide)
      (by intro _ st hst
          fin_cases hst <;> norm_num [Story.getHours])).2⟩

/-- C10 witness: a single story with no `hours` key has weight sum 0, and
the custom allocation sets its `hours` to 1. -/
theorem custom_weight_mutation_witness :
    (([⟨"A", none, none⟩] : List Story).map Story.getHours).sum ≤ 0 ∧
    (allocateStories [⟨"A", none, none⟩] "custom" 100).2 =
      ([⟨"A", none, none⟩] : List Story).map Story.setHoursOne :=
  ⟨by simp [Story.getHours],
    (custom_weight_mutation [⟨"A", none, none⟩] 100).1
      (by simp [Story.getHours])⟩

/-! ## C3: backfill characterisation -/

/-- The ticket-loop worklogs carry exactly the equal split's seconds. -/
theorem ticketSplitWorklogs_seconds (issues : List Issue) (total : ℤ) :
    (ticketSplitWorklogs issues total).map Worklog.time_spent_seconds =
      equalSplit total issues.length := by
  unfold ticketSplitWorklogs
  rw [List.map_map]
  exact List.map_snd_zip _ _ (le_of_eq (equalSplit_length total _))

/-- Over a non-empty ticket list the ticket-loop worklogs sum to the
total. -/
theorem ticketSplitWorklogs_sum (issues : List Issue) (total : ℤ)
    (hne : issues ≠ []) :
    ((ticketSplitWorklogs issues total).map
      Worklog.time_spent_seconds).sum = total := by
  rw [ticketSplitWorklogs_seconds]
  exact equalSplit_sum total _ (List.length_pos.mpr hne)

/-- When the overhead configuration is present, `_log_overhead_hours`
with no explicit story list books worklogs summing exactly to the given
nonnegative total (under the custom-mode weight invariant). -/
theorem logOverheadHours_created_sum (oh : OhConfig) (total : ℤ)
    (ht : 0 ≤ total) (hconf : isOverheadConfigured oh = true)
    (hw : ∀ st ∈ oh.current_pi.stories, 0 ≤ st.getHours) :
    ((logOverheadHours oh total none none).created.map
      Worklog.time_spent_seconds).sum = total := by
  have hne : oh.current_pi.stories ≠ [] := by
    simp only [isOverheadConfigured, Bool.and_eq_true, decide_eq_true_eq]
      at hconf
    exact hconf.2
  simp only [logOverheadHours, Option.getD_none]
  rw [if_neg hne]
  have h := allocateStories_sum_nonneg oh.current_pi.stories
    (oh.current_pi.distribution.getD "equal") total hne ht (fun _ => hw)
  rw [createdFromAllocations_seconds, sum_filter_pos, h.1]
  intro x hx
  obtain ⟨a, ha, rfl⟩ := List.mem_map.mp hx
  exact h.2 a ha

/-- C3 counterexample: a 1-second gap over two unlogged stories allocates
`1 // 2 = 0` seconds to the first story, and the backfill loop attempts
(and in this model succeeds in) booking that zero-second worklog — the
claim that no zero-second booking is ever attempted fails. -/
theorem backfill_zero_second_booking_cex :
    (backfillDay [⟨"STORY-1", "First story"⟩, ⟨"STORY-2", "Second story"⟩]
      emptyOh 1 []).2.1 = "stories" ∧
    (⟨"STORY-1", "First story", 0⟩ : Worklog) ∈
      (backfillDay [⟨"STORY-1", "First story"⟩, ⟨"STORY-2", "Second story"⟩]
        emptyOh 1 []).1 := by
  constructor
  · decide
  · decide

/-- C3 (amended): the backfill filters out already-booked tickets; with no
unlogged ticket left it allocates the full gap to the overhead targets
(method `"overhead"`) when overhead is configured and reports method
`"none"` otherwise; with unlogged tickets it books one worklog per ticket
by the equal split — including zero-second allocations, which it does not
skip — under method `"stories"`, the booked seconds again summing to the
gap. -/
theorem backfill_day_characterisation (issues : List Issue) (oh : OhConfig)
    (gap : ℤ) (keys : List String) :
    (issues.filter (fun i => i.issue_key ∉ keys) = [] →
      isOverheadConfigured oh = true →
      backfillDay issues oh gap keys =
        ((logOverheadHours oh gap none none).created, "overhead",
          (logOverheadHours oh gap none none).ohAfter)) ∧
    (issues.filter (fun i => i.issue_key ∉ keys) = [] →
      isOverheadConfigured oh = false →
      backfillDay issues oh gap keys = ([], "none", oh)) ∧
    (issues.filter (fun i => i.issue_key ∉ keys) ≠ [] →
      backfillDay issues oh gap keys =
        (ticketSplitWorklogs (issues.filter (fun i => i.issue_key ∉ keys))
          gap, "stories", oh) ∧
      ((backfillDay issues oh gap keys).1.map
        Worklog.time_spent_seconds).sum = gap) ∧
    (issues.filter (fun i => i.issue_key ∉ keys) = [] →
      isOverheadConfigured oh = true → 0 ≤ gap →
      (∀ st ∈ oh.current_pi.stories, 0 ≤ st.getHours) →
      ((backfillDay issues oh gap keys).1.map
        Worklog.time_spent_seconds).sum = gap) := by
  refine ⟨?_, ?_, ?_, ?_⟩
  · intro hempty hconf
    simp only [backfillDay]
    rw [if_pos hempty, if_pos hconf]
  · intro hempty hconf
    simp only [backfillDay]
    rw [if_pos hempty, if_neg (by simp [hconf])]
  · intro hne
    have hval : backfillDay issues oh gap keys =
        (ticketSplitWorklogs (issues.filter (fun i => i.issue_key ∉ keys))
          gap, "stories", oh) := by
      simp only [backfillDay]
      rw [if_neg hne]
    refine ⟨hval, ?_⟩
    rw [hval]
    exact ticketSplitWorklogs_sum _ gap hne
  · intro hempty hconf ht hw
    have hval : backfillDay issues oh gap keys =
        ((logOverheadHours oh gap none none).created, "overhead",
          (logOverheadHours oh gap none none).ohAfter) := by
      simp only [backfillDay]
      rw [if_pos hempty, if_pos hconf]
    rw [hval]
    exact logOverheadHours_created_sum oh gap ht hconf hw

/-- C3 witness: three unlogged stories and a gap of 28801 seconds backfill
as 9600 + 9600 + 9601 = 28801, method `"stories"`. -/
theorem backfill_day_characterisation_witness :
    (([⟨"S-1", "a"⟩, ⟨"S-2", "b"⟩, ⟨"S-3", "c"⟩] : List Issue).filter
      (fun i => i.issue_key ∉ ([] : List String)) ≠ []) ∧
    backfillDay [⟨"S-1", "a"⟩, ⟨"S-2", "b"⟩, ⟨"S-3", "c"⟩] emptyOh 28801 []
      = (ticketSplitWorklogs
          (([⟨"S-1", "a"⟩, ⟨"S-2", "b"⟩, ⟨"S-3", "c"⟩] : List Issue).filter
            (fun i => i.issue_key ∉ ([] : List String))) 28801,
         "stories", emptyOh) ∧
    ((backfillDay [⟨"S-1", "a"⟩, ⟨"S-2", "b"⟩, ⟨"S-3", "c"⟩] emptyOh 28801
      []).1.map Worklog.time_spent_seconds).sum = 28801 :=
  ⟨by decide,
    ((backfill_day_characterisation [⟨"S-1", "a"⟩, ⟨"S-2", "b"⟩, ⟨"S-3", "c"⟩]
      emptyOh 28801 []).2.2.1 (by decide)).1,
    ((backfill_day_characterisation [⟨"S-1", "a"⟩, ⟨"S-2", "b"⟩, ⟨"S-3", "c"⟩]
      emptyOh 28801 []).2.2.1 (by decide)).2⟩

/-! ## C1: the monthly submission -/

/-- January 2026 has 22 working days on the plain schedule. -/
theorem countWorkingDays_jan26 :
    countWorkingDays plainSched ⟨2026, 1, 1⟩ ⟨2026, 1, 31⟩ = 22 := by
  decide

/-- C1 counterexample: on the last day of January 2026 with no hours
logged the shortfall is 176h > 0.5h, the shortfall notification fires —
and the timesheet is submitted and confirmed anyway: `submit_timesheet`
has no early return in the shortfall branch (lines 3148-3161). -/
theorem submit_despite_shortfall_cex :
    (getExpectedHours plainSched ⟨2026, 1, 1⟩ ⟨2026, 1, 31⟩ -
      ((c1Env.monthWorklogs.map Worklog.time_spent_seconds).sum : ℚ) / 3600
      > 1/2) ∧
    (submitTimesheet c1Env).shortfallNotified = true ∧
    (submitTimesheet c1Env).submitted = true ∧
    (submitTimesheet c1Env).confirmationSent = true := by
  have hshort : getExpectedHours plainSched ⟨2026, 1, 1⟩ ⟨2026, 1, 31⟩ -
      ((c1Env.monthWorklogs.map Worklog.time_spent_seconds).sum : ℚ) / 3600
      > 1/2 := by
    rw [getExpectedHours, countWorkingDays_jan26]
    norm_num [plainSched, c1Env]
  refine ⟨hshort, ?_, rfl, rfl⟩
  have hproj : (submitTimesheet c1Env).shortfallNotified =
      (decide (getExpectedHours plainSched ⟨2026, 1, 1⟩ ⟨2026, 1, 31⟩ -
        ((c1Env.monthWorklogs.map Worklog.time_spent_seconds).sum : ℚ) / 3600
        > 1/2) && true) := rfl
  rw [hproj, Bool.and_true, decide_eq_true_eq]
  exact hshort

/-- C1 (amended): on the last calendar day of the month the check sends a
shortfall notification exactly when `expected − actual > 0.5h` (and
notifications are enabled), but the submission itself is attempted
unconditionally, with a confirmation sent iff the Tempo call succeeds. -/
theorem submit_last_day_behaviour (env : SubmitEnv)
    (hlast : env.today.day = daysInMonth env.today.year env.today.month) :
    (submitTimesheet env).submissionAttempted = true ∧
    ((submitTimesheet env).shortfallNotified = true ↔
      (getExpectedHours env.schedule ⟨env.today.year, env.today.month, 1⟩
        env.today -
        (if env.jiraAvailable
          then ((env.monthWorklogs.map Worklog.time_spent_seconds).sum : ℚ)
            / 3600
          else 0) > 1/2) ∧ env.notifyOnShortfall = true) ∧
    ((submitTimesheet env).submitted = true ↔
      env.tempoSubmitSucceeds = true) ∧
    ((submitTimesheet env).confirmationSent = true ↔
      env.tempoSubmitSucceeds = true) := by
  simp only [submitTimesheet]
  rw [if_neg (fun hcon => hcon hlast)]
  refine ⟨rfl, ?_, Iff.rfl, Iff.rfl⟩
  simp only [Bool.and_eq_true, decide_eq_true_eq]

/-- C1 witness: 2026-01-31 is the last day of its month, and the
submission is attempted there. -/
theorem submit_last_day_behaviour_witness :
    c1Env.today.day = daysInMonth c1Env.today.year c1Env.today.month ∧
    (submitTimesheet c1Env).submissionAttempted = true :=
  ⟨by decide, (submit_last_day_behaviour c1Env (by decide)).1⟩

/-! ## C8: the PI identifier parser -/

/-- A maximal digit run followed by a non-digit scans as itself. -/
theorem spanDigits_append (ds r : List Char)
    (hds : ∀ c ∈ ds, c.isDigit = true)
    (hr : ∀ c, r.head? = some c → c.isDigit = false) :
    spanDigits (ds ++ r) = (ds, r) := by
  induction ds with
  | nil =>
    cases r with
    | nil => rfl
    | cons c cs => simp [spanDigits, hr c rfl]
  | cons d ds ih =>
    have hd := hds d (List.mem_cons_self d ds)
    have hds2 := fun c hc => hds c (List.mem_cons_of_mem d hc)
    simp [spanDigits, hd, ih hds2]

/-- The scan only returns digit prefixes, and splits its input. -/
theorem spanDigits_sound (l : List Char) :
    ∀ ds r, spanDigits l = (ds, r) →
      l = ds ++ r ∧ ∀ c ∈ ds, c.isDigit = true := by
  induction l with
  | nil =>
    intro ds r h
    simp only [spanDigits, Prod.mk.injEq] at h
    obtain ⟨h1, h2⟩ := h
    subst h1
    subst h2
    simp
  | cons c cs ih =>
    intro ds r h
    by_cases hc : c.isDigit
    · simp only [spanDigits, hc, if_true, Prod.mk.injEq] at h
      obtain ⟨h1, h2⟩ := h
      subst h1
      subst h2
      have hih := ih (spanDigits cs).1 (spanDigits cs).2 rfl
      refine ⟨by rw [List.cons_append, ← hih.1], ?_⟩
      intro x hx
      rcases List.mem_cons.mp hx with rfl | hx2
      · exact hc
      · exact hih.2 x hx2
    · simp only [spanDigits, hc, Bool.false_eq_true, if_false,
        Prod.mk.injEq] at h
      obtain ⟨h1, h2⟩ := h
      subst h1
      subst h2
      simp

/-- C8 counterexample: `"PI.26.2.APR.17xyz"` is not exactly of the
`PI.<YY>.<N>.<MON3>.<DD>` form (it has trailing characters), yet the
parser accepts it and returns 2026-04-17 — `re.match` anchors only at the
start of the string. -/
theorem parse_pi_trailing_junk_cex :
    claimPiExactForm "PI.26.2.APR.17xyz" = false ∧
    parsePiEndDate "PI.26.2.APR.17xyz" = some ⟨2026, 4, 17⟩ := by
  constructor
  · decide
  · decide

/-- C8 (amended): the parser accepts exactly the strings that *begin*
with the `PI.<YY>.<N>.<MON3>.<DD>` form — whatever follows the day digits
is ignored — returning the date with year `2000 + YY`, the month named by
the abbreviation, and the (greedily two-digit) day, with absent results
exactly for unknown month abbreviations and invalid calendar dates; every
accepted input decomposes this way. -/
theorem parse_pi_characterisation :
    (∀ (a b m1 m2 m3 d1 : Char) (mid tail : List Char),
      a.isDigit = true → b.isDigit = true → mid ≠ [] →
      (∀ c ∈ mid, c.isDigit = true) → m1.isUpper = true →
      m2.isUpper = true → m3.isUpper = true → d1.isDigit = true →
      parsePiEndDate (String.mk ('P' :: 'I' :: '.' :: a :: b :: '.' ::
          (mid ++ '.' :: m1 :: m2 :: m3 :: '.' :: d1 :: tail))) =
        piDateOf (digitVal a * 10 + digitVal b) (String.mk [m1, m2, m3])
          (match tail with
           | d2 :: _ => if d2.isDigit then digitVal d1 * 10 + digitVal d2
              else digitVal d1
           | [] => digitVal d1)) ∧
    (∀ (s : String) (d : Date), parsePiEndDate s = some d →
      ∃ (a b m1 m2 m3 d1 : Char) (mid tail : List Char),
        s.data = 'P' :: 'I' :: '.' :: a :: b :: '.' ::
          (mid ++ '.' :: m1 :: m2 :: m3 :: '.' :: d1 :: tail) ∧
        a.isDigit = true ∧ b.isDigit = true ∧ mid ≠ [] ∧
        (∀ c ∈ mid, c.isDigit = true) ∧ m1.isUpper = true ∧
        m2.isUpper = true ∧ m3.isUpper = true ∧ d1.isDigit = true) := by
  constructor
  · intro a b m1 m2 m3 d1 mid tail ha hb hmid hmidd h1 h2 h3 hd1
    have hspan := spanDigits_append mid
      ('.' :: m1 :: m2 :: m3 :: '.' :: d1 :: tail) hmidd
      (by
        intro c hc
        simp only [List.head?, Option.some.injEq] at hc
        subst hc
        decide)
    simp only [parsePiEndDate, ha, hb, and_self, if_true, hspan,
      if_neg hmid, h1, h2, h3, hd1]
    rfl
  · intro s d h
    unfold parsePiEndDate at h
    split at h <;> try simp at h
    rename_i rest heq1
    split at h <;> try simp at h
    rename_i a b rest2
    obtain ⟨hab, h⟩ := h
    rcases hsd : spanDigits rest2 with ⟨ds, r⟩
    rw [hsd] at h
    split at h <;> try simp at h
    rename_i ds2 rest3 heq2
    obtain ⟨hds, h⟩ := h
    split at h <;> try simp at h
    rename_i m1 m2 m3 rest4
    obtain ⟨hm, h⟩ := h
    split at h <;> try simp at h
    rename_i d1 tail
    obtain ⟨hd1, h⟩ := h
    have hchain : spanDigits rest2 =
        (ds2, '.' :: m1 :: m2 :: m3 :: '.' :: d1 :: tail) := hsd.trans heq2
    have hsound := spanDigits_sound rest2 _ _ hchain
    refine ⟨a, b, m1, m2, m3, d1, ds2, tail, ?_, hab.1, hab.2, hds,
      hsound.2, hm.1.1, hm.1.2, hm.2, hd1⟩
    rw [heq1, hsound.1]

/-- C8 witness: `"PI.26.2.APR.17"` decomposes by the characterisation and
parses to 2026-04-17. -/
theorem parse_pi_characterisation_witness :
    parsePiEndDate (String.mk ('P' :: 'I' :: '.' :: '2' :: '6' :: '.' ::
        (['2'] ++ '.' :: 'A' :: 'P' :: 'R' :: '.' :: '1' :: ['7']))) =
      some ⟨2026, 4, 17⟩ :=
  (parse_pi_characterisation.1 '2' '6' 'A' 'P' 'R' '1' ['2'] ['7']
    (by decide) (by decide) (by decide) (by decide) (by decide) (by decide)
    (by decide) (by decide)).trans (by decide)

/-! ## C9: the planning-week window -/

/-- The scan loop of `_is_planning_week`, characterised: starting at
offset `k` with `w` working days already counted, it returns the
`(5 - w)`-th working day among the remaining candidate offsets
`k .. 13`. -/
theorem planningScan_spec (sched : Schedule) (piEnd : Date) :
    ∀ (fuel k w : Nat) (p : Option Date), 1 ≤ k → k ≤ 14 → w < 5 →
      15 ≤ k + fuel →
      planningScan sched piEnd fuel k w p =
        ((dateRun (piEnd.addDays k) (14 - k)).filter
          (fun d => (isWorkingDay sched d).1)).get? (4 - w) := by
  intro fuel
  induction fuel with
  | zero =>
    intro k w p hk1 hk14 hw hfuel
    omega
  | succ f ih =>
    intro k w p hk1 hk14 hw hfuel
    simp only [planningScan]
    rw [if_neg (by omega : ¬ w ≥ 5)]
    by_cases hk : k = 14
    · subst hk
      rw [if_pos (by omega)]
      rfl
    · rw [if_neg (by omega : ¬ k + 1 > 14)]
      have hnext : (piEnd.addDays k).next = piEnd.addDays (k + 1) := by
        rw [Date.addDays, Date.addDays, Function.iterate_succ_apply']
      have hrange : 14 - k = (14 - (k + 1)) + 1 := by omega
      rw [hrange]
      cases hisw : (isWorkingDay sched (piEnd.addDays k)).1 with
      | false =>
        simp only [Bool.false_eq_true, if_false]
        rw [ih (k + 1) w p (by omega) (by omega) (by omega) (by omega)]
        simp [dateRun, hnext, hisw, List.filter_cons]
      | true =>
        simp only [eq_self_iff_true, if_true]
        by_cases hw4 : w = 4
        · subst hw4
          have hf : f = (f - 1) + 1 := by omega
          rw [hf]
          simp only [planningScan]
          rw [if_pos (by omega : 4 + 1 ≥ 5)]
          simp [dateRun, hnext, hisw, List.filter_cons]
        · rw [ih (k + 1) (w + 1) (some (piEnd.addDays k)) (by omega)
            (by omega) (by omega) (by omega)]
          simp only [dateRun, hnext, List.filter_cons, hisw, if_true]
          have h41 : 4 - w = (4 - (w + 1)) + 1 := by omega
          rw [h41]
          rfl

/-- The entry call of the scan computes the 5th working day among the 13
calendar days after the PI end — not 14: the safety check fires even when
the 5th working day falls exactly 14 days out. -/
theorem planningScan_entry (sched : Schedule) (piEnd : Date) :
    planningScan sched piEnd 15 1 0 none =
      boundedFifthWorkingDay sched piEnd 13 := by
  rw [planningScan_spec sched piEnd 15 1 0 none (by omega) (by omega)
    (by omega) (by omega)]
  unfold boundedFifthWorkingDay
  rw [show piEnd.addDays 1 = piEnd.next from by
    rw [Date.addDays, Function.iterate_one]]

/-- C9 counterexample: on `c9Sched` the 5th working day after Monday
2026-01-05 is 2026-01-19 — exactly 14 calendar days later, within the
claimed 14-day bound — so the claim puts 2026-01-19 inside the planning
window (`piEnd < d ≤ end`), yet `_is_planning_week` rejects it: its
safety check also fires when the 5th working day is found on day 14. -/
theorem planning_window_cex :
    resolvePiEndDate c9Oh.current_pi = some ⟨2026, 1, 5⟩ ∧
    boundedFifthWorkingDay c9Sched ⟨2026, 1, 5⟩ 14 = some ⟨2026, 1, 19⟩ ∧
    (⟨2026, 1, 5⟩ : Date) < ⟨2026, 1, 19⟩ ∧
    (⟨2026, 1, 19⟩ : Date) ≤ ⟨2026, 1, 19⟩ ∧
    isPlanningWeek c9Sched c9Oh ⟨2026, 1, 19⟩ = false := by
  refine ⟨rfl, by decide, by decide, by decide, by decide⟩

/-- C9 (amended): a date is accepted by the planning-week check iff the
PI end date resolves, the 5th working day after it falls within the 13
calendar days that follow it, and the date lies in
`(piEnd, 5th working day]`; that endpoint always lies within those 13
days, so an accepted window never spans more than 13 calendar days — if
the 5th working day falls 14 or more days out (in particular, if it never
accumulates), every date is rejected. -/
theorem planning_week_characterisation (sched : Schedule) (oh : OhConfig)
    (target : Date) :
    (isPlanningWeek sched oh target = true ↔
      ∃ piEnd e, resolvePiEndDate oh.current_pi = some piEnd ∧
        boundedFifthWorkingDay sched piEnd 13 = some e ∧
        piEnd < target ∧ target ≤ e) ∧
    (∀ piEnd e, boundedFifthWorkingDay sched piEnd 13 = some e →
      e ∈ dateRun piEnd.next 13) := by
  constructor
  · unfold isPlanningWeek
    cases hres : resolvePiEndDate oh.current_pi with
    | none => simp
    | some piEnd =>
      dsimp only
      by_cases hle : target ≤ piEnd
      · rw [if_pos hle]
        simp only [Bool.false_eq_true, false_iff]
        rintro ⟨piEnd2, e, heq, _, hlt, _⟩
        rw [Option.some.injEq] at heq
        subst heq
        exact (date_not_le.mpr hlt) hle
      · rw [if_neg hle, planningScan_entry]
        cases hscan : boundedFifthWorkingDay sched piEnd 13 with
        | none => simp [hscan]
        | some e =>
          simp only [hscan, decide_eq_true_eq, Option.some.injEq]
          constructor
          · intro hcond
            exact ⟨piEnd, e, rfl, hscan, hcond.1, hcond.2⟩
          · rintro ⟨piEnd2, e2, rfl, heq2, hlt, hle2⟩
            rw [hscan, Option.some.injEq] at heq2
            subst heq2
            exact ⟨hlt, hle2⟩
  · intro piEnd e he
    have hmem := List.get?_mem he
    exact (List.mem_filter.mp hmem).1

/-- C9 witness: with no holidays the 5th working day after Monday
2026-01-05 is Monday 2026-01-12, and Wednesday 2026-01-07 is accepted as
part of the planning window. -/
theorem planning_week_characterisation_witness :
    isPlanningWeek plainSched c9Oh ⟨2026, 1, 7⟩ = true :=
  (planning_week_characterisation plainSched c9Oh ⟨2026, 1, 7⟩).1.mpr
    ⟨⟨2026, 1, 5⟩, ⟨2026, 1, 12⟩, rfl, by decide, by decide, by decide⟩

theorem sum_getHours_setOne (s : List Story) :
    ((s.map Story.setHoursOne).map Story.getHours).sum = (s.length : ℚ) := by
  rw [List.map_map]
  have hconst : s.map (Story.getHours ∘ Story.setHoursOne) =
      s.map (fun _ => (1 : ℚ)) := by
    apply List.map_congr_left
    intro x _
    rfl
  rw [hconst, List.map_const', List.sum_replicate, nsmul_eq_mul, mul_one]

theorem allocateStories_snd (s : List Story) (d : String) (t : ℤ) :
    (allocateStories s d t).2 = s ∨
    (allocateStories s d t).2 = s.map Story.setHoursOne := by
  by_cases h1 : d = "single"
  · left
    simp [allocateStories, h1]
  · by_cases h2 : d = "custom"
    · by_cases h3 : (s.map Story.getHours).sum ≤ 0
      · right
        simp [allocateStories, h1, h2, h3]
      · left
        simp [allocateStories, h1, h2, h3]
    · left
      simp [allocateStories, h1, h2]

theorem allocateStories_snd_ne_nil {s : List Story} (d : String) (t : ℤ)
    (hne : s ≠ []) : (allocateStories s d t).2 ≠ [] := by
  rcases allocateStories_snd s d t with h | h <;> rw [h] <;> simpa

theorem allocateStories_stable (s : List Story) (d : String) (t : ℤ) :
    allocateStories (allocateStories s d t).2 d t =
      allocateStories s d t := by
  by_cases h1 : d = "single"
  · have h2 : (allocateStories s d t).2 = s := by simp [allocateStories, h1]
    rw [h2]
  · by_cases h2 : d = "custom"
    · subst h2
      by_cases h3 : (s.map Story.getHours).sum ≤ 0
      · have hsnd : (allocateStories s "custom" t).2 =
            s.map Story.setHoursOne := by
          simp [allocateStories, h1, h3]
        rw [hsnd]
        cases s with
        | nil => rfl
        | cons x xs =>
          have hlen : (0 : ℚ) < ((x :: xs).length : ℚ) := by
            exact_mod_cast Nat.succ_pos xs.length
          have hsum := sum_getHours_setOne (x :: xs)
          have hpos : ¬ (((x :: xs).map Story.setHoursOne).map
              Story.getHours).sum ≤ 0 := by
            rw [hsum]
            exact not_le.mpr hlen
          have hlval : allocateStories
              ((x :: xs).map Story.setHoursOne) "custom" t =
              (fixLastAllocation (((x :: xs).map Story.setHoursOne).map
                (fun s => (s, truncQ ((t : ℚ) * (s.getHours /
                  (((x :: xs).map Story.setHoursOne).map
                    Story.getHours).sum))))) t,
               (x :: xs).map Story.setHoursOne) := by
            simp only [allocateStories]
            rw [if_neg (by decide : ¬ ("custom" = "single")), if_pos trivial,
              if_neg hpos]
          have hrval : allocateStories (x :: xs) "custom" t =
              (fixLastAllocation (((x :: xs).map Story.setHoursOne).map
                (fun s => (s, truncQ ((t : ℚ) * (s.getHours /
                  ((x :: xs).length : ℚ)))))) t,
               (x :: xs).map Story.setHoursOne) := by
            simp only [allocateStories]
            rw [if_neg (by decide : ¬ ("custom" = "single")), if_pos trivial,
              if_pos h3]
          rw [hlval, hrval]
          simp only [hsum]
      · have hsnd : (allocateStories s "custom" t).2 = s := by
          simp [allocateStories, h1, h3]
        rw [hsnd]
    · have hsnd : (allocateStories s d t).2 = s := by
        simp [allocateStories, h1, h2]
      rw [hsnd]

theorem fixLast_fst_mem (a : List (Story × ℤ)) (t : ℤ) (x : Story × ℤ)
    (hx : x ∈ fixLastAllocation a t) : x.1 ∈ a.map Prod.fst := by
  simp only [fixLastAllocation] at hx
  split_ifs at hx with h
  · rcases List.mem_append.mp hx with h1 | h1
    · exact List.mem_map_of_mem Prod.fst (List.dropLast_subset a h1)
    · have hne : a ≠ [] := h.1
      rw [List.getLast?_eq_getLast_of_ne_nil hne] at h1
      simp only [Option.map_some', Option.getD_some,
        List.mem_singleton] at h1
      subst h1
      exact List.mem_map.mpr ⟨a.getLast hne, List.getLast_mem hne, rfl⟩
  · exact List.mem_map_of_mem Prod.fst hx

theorem allocateStories_fst_key (s : List Story) (d : String) (t : ℤ)
    (x : Story × ℤ) (hx : x ∈ (allocateStories s d t).1) :
    x.1.issue_key ∈ s.map Story.issue_key := by
  by_cases h1 : d = "single"
  · cases s with
    | nil => simp [allocateStories, h1] at hx
    | cons hd tl =>
      have hval : (allocateStories (hd :: tl) d t).1 = [(hd, t)] := by
        simp [allocateStories, h1]
      rw [hval, List.mem_singleton] at hx
      subst hx
      simp
  · by_cases h2 : d = "custom"
    · by_cases h3 : (s.map Story.getHours).sum ≤ 0
      · have hval : (allocateStories s d t).1 =
            fixLastAllocation ((s.map Story.setHoursOne).map
              (fun st => (st, truncQ ((t : ℚ) * (st.getHours /
                (s.length : ℚ)))))) t := by
          simp [allocateStories, h1, h2, h3]
        rw [hval] at hx
        have hx1 := fixLast_fst_mem _ t x hx
        simp only [List.map_map, List.mem_map, Function.comp] at hx1
        rcases hx1 with ⟨y, hy, hxy⟩
        rw [← hxy]
        exact List.mem_map.mpr ⟨y, hy, rfl⟩
      · have hval : (allocateStories s d t).1 =
            fixLastAllocation (s.map
              (fun st => (st, truncQ ((t : ℚ) * (st.getHours /
                (s.map Story.getHours).sum))))) t := by
          simp [allocateStories, h1, h2, h3]
        rw [hval] at hx
        have hx1 := fixLast_fst_mem _ t x hx
        simp only [List.map_map, List.mem_map, Function.comp] at hx1
        rcases hx1 with ⟨y, hy, hxy⟩
        rw [← hxy]
        exact List.mem_map_of_mem Story.issue_key hy
    · have hval : (allocateStories s d t).1 =
          s.zip (equalSplit t s.length) := by
        simp [allocateStories, h1, h2]
      rw [hval] at hx
      exact List.mem_map_of_mem Story.issue_key (List.of_mem_zip hx).1

theorem createdFromAllocations_key (a : List (Story × ℤ)) (wl : Worklog)
    (hwl : wl ∈ createdFromAllocations a) :
    ∃ x ∈ a, wl.issue_key = x.1.issue_key := by
  simp only [createdFromAllocations, List.mem_map] at hwl
  rcases hwl with ⟨x, hx, rfl⟩
  exact ⟨x, List.mem_of_mem_filter hx, rfl⟩

theorem ticketSplitWorklogs_key (issues : List Issue) (t : ℤ)
    (wl : Worklog) (hwl : wl ∈ ticketSplitWorklogs issues t) :
    wl.issue_key ∈ issues.map Issue.issue_key := by
  simp only [ticketSplitWorklogs, List.mem_map] at hwl
  rcases hwl with ⟨p, hp, rfl⟩
  exact List.mem_map_of_mem Issue.issue_key (List.of_mem_zip hp).1

theorem logOverheadHours_some_val (oh : OhConfig) (t : ℤ)
    (l : List Story) (dArg : Option String) (hl : l ≠ []) :
    logOverheadHours oh t (some l) dArg =
      ⟨createdFromAllocations
          (allocateStories l (dArg.getD "equal") t).1,
        oh, some (allocateStories l (dArg.getD "equal") t).2⟩ := by
  cases dArg with
  | none =>
    simp only [logOverheadHours, Option.getD_some, Option.getD_none]
    rw [if_neg hl]
  | some dd =>
    simp only [logOverheadHours, Option.getD_some]
    rw [if_neg hl]

theorem logOverheadHours_none_val (oh : OhConfig) (t : ℤ)
    (hs : oh.current_pi.stories ≠ []) :
    logOverheadHours oh t none none =
      ⟨createdFromAllocations
          (allocateStories oh.current_pi.stories
            (oh.current_pi.distribution.getD "equal") t).1,
        { oh with current_pi := { oh.current_pi with stories :=
            (allocateStories oh.current_pi.stories
              (oh.current_pi.distribution.getD "equal") t).2 } },
        none⟩ := by
  simp only [logOverheadHours, Option.getD_none]
  rw [if_neg hs]

theorem logOverheadHours_none_empty_val (oh : OhConfig) (t : ℤ)
    (hs : oh.current_pi.stories = []) :
    logOverheadHours oh t none none =
      (if oh.fallback_issue_key ≠ "" then
        ⟨createdFromAllocations
            (allocateStories
              [⟨oh.fallback_issue_key, some oh.fallback_issue_key, none⟩]
              "single" t).1, oh, none⟩
      else ⟨[], oh, none⟩) := by
  simp only [logOverheadHours, Option.getD_none]
  rw [if_pos hs]


theorem prefFilter_idem (pref : String) (A : List Worklog) :
    prefFilter pref (prefFilter pref A) = prefFilter pref A := by
  simp [prefFilter, List.filter_filter]

theorem prefFilter_append_unpref (pref : String) (A C : List Worklog)
    (hC : ∀ wl ∈ C, strStartsWith pref wl.issue_key = false) :
    prefFilter pref (prefFilter pref A ++ C) = prefFilter pref A := by
  have h1 : C.filter (fun wl => strStartsWith pref wl.issue_key) = [] := by
    rw [List.filter_eq_nil_iff]
    intro wl hw
    simp [hC wl hw]
  rw [prefFilter, List.filter_append, h1, List.append_nil]
  exact prefFilter_idem pref A

theorem manualTempoEntry_shape (env : SyncEnv) (st : SyncState) :
    manualTempoEntry env st =
      (if max 0 env.tempoExtraSeconds > 0 then
        [⟨"OVERHEAD (Tempo)", "Manual Tempo entries",
          max 0 env.tempoExtraSeconds⟩]
      else []) := by
  simp [manualTempoEntry, add_sub_cancel_left]

theorem autoLogRemaining_stable (env : SyncEnv) (A C : List Worklog)
    (oh oh2 : OhConfig) (hpref : oh2.ohPrefix = oh.ohPrefix)
    (hC : ∀ wl ∈ C, strStartsWith oh.ohPrefix wl.issue_key = false) :
    autoLogRemaining env ⟨prefFilter oh.ohPrefix A ++ C, oh2⟩ =
      autoLogRemaining env ⟨A, oh⟩ := by
  simp only [autoLogRemaining, hpref, add_sub_cancel_left,
    prefFilter_append_unpref oh.ohPrefix A C hC]


theorem logOverheadHours_none_shape (oh : OhConfig) (t : ℤ) :
    ∃ S2 : List Story,
      (logOverheadHours oh t none none).ohAfter =
        { oh with current_pi := { oh.current_pi with stories := S2 } } ∧
      (S2 = oh.current_pi.stories ∨
        S2 = oh.current_pi.stories.map Story.setHoursOne) := by
  by_cases hs : oh.current_pi.stories = []
  · refine ⟨oh.current_pi.stories, ?_, Or.inl rfl⟩
    rw [logOverheadHours_none_empty_val oh t hs]
    split_ifs <;> rfl
  · exact ⟨_, by rw [logOverheadHours_none_val oh t hs],
      allocateStories_snd _ _ _⟩

theorem allocateStories_snd_unpref (s : List Story) (d : String) (t : ℤ)
    (pref : String)
    (hS : ∀ st ∈ s, strStartsWith pref st.issue_key = false) :
    ∀ st2 ∈ (allocateStories s d t).2,
      strStartsWith pref st2.issue_key = false := by
  intro st2 h2
  rcases allocateStories_snd s d t with h | h <;> rw [h] at h2
  · exact hS st2 h2
  · rcases List.mem_map.mp h2 with ⟨y, hy, rfl⟩
    exact hS y hy

theorem logOverheadHours_none_unpref (oh : OhConfig) (t : ℤ)
    (pref : String)
    (hS : ∀ st ∈ oh.current_pi.stories,
      strStartsWith pref st.issue_key = false)
    (hF : strStartsWith pref oh.fallback_issue_key = false) :
    ∀ wl ∈ (logOverheadHours oh t none none).created,
      strStartsWith pref wl.issue_key = false := by
  intro wl hwl
  by_cases hs : oh.current_pi.stories = []
  · rw [logOverheadHours_none_empty_val oh t hs] at hwl
    split_ifs at hwl with hfb
    · rcases createdFromAllocations_key _ wl hwl with ⟨x, hx, hkey⟩
      have hm := allocateStories_fst_key _ _ _ x hx
      simp only [List.map_cons, List.map_nil, List.mem_singleton] at hm
      rw [hkey, hm]
      exact hF
    · exact absurd hwl (List.not_mem_nil wl)
  · rw [logOverheadHours_none_val oh t hs] at hwl
    rcases createdFromAllocations_key _ wl hwl with ⟨x, hx, hkey⟩
    rcases List.mem_map.mp (allocateStories_fst_key _ _ _ x hx) with
      ⟨y, hy, hykey⟩
    rw [hkey, ← hykey]
    exact hS y hy

theorem logOverheadHours_some_unpref (oh : OhConfig) (t : ℤ)
    (l : List Story) (dArg : Option String) (pref : String) (hl : l ≠ [])
    (hS : ∀ st ∈ l, strStartsWith pref st.issue_key = false) :
    ∀ wl ∈ (logOverheadHours oh t (some l) dArg).created,
      strStartsWith pref wl.issue_key = false := by
  intro wl hwl
  rw [logOverheadHours_some_val oh t l dArg hl] at hwl
  rcases createdFromAllocations_key _ wl hwl with ⟨x, hx, hkey⟩
  rcases List.mem_map.mp (allocateStories_fst_key _ _ _ x hx) with
    ⟨y, hy, hykey⟩
  rw [hkey, ← hykey]
  exact hS y hy

theorem ticketSplit_unpref (issues : List Issue) (t : ℤ) (pref : String)
    (hA : ∀ i ∈ issues, strStartsWith pref i.issue_key = false) :
    ∀ wl ∈ ticketSplitWorklogs issues t,
      strStartsWith pref wl.issue_key = false := by
  intro wl hwl
  rcases List.mem_map.mp (ticketSplitWorklogs_key issues t wl hwl) with
    ⟨i, hi, hikey⟩
  rw [← hikey]
  exact hA i hi

theorem logOverheadHours_none_stable (oh : OhConfig) (t : ℤ) :
    logOverheadHours (logOverheadHours oh t none none).ohAfter t
      none none = logOverheadHours oh t none none := by
  by_cases hs : oh.current_pi.stories = []
  · have hAfter : (logOverheadHours oh t none none).ohAfter = oh := by
      rw [logOverheadHours_none_empty_val oh t hs]
      split_ifs <;> rfl
    rw [hAfter]
  · rw [logOverheadHours_none_val oh t hs]
    have hs2 : ({ oh with current_pi := { oh.current_pi with stories :=
        (allocateStories oh.current_pi.stories
          (oh.current_pi.distribution.getD "equal") t).2 } } :
        OhConfig).current_pi.stories ≠ [] :=
      allocateStories_snd_ne_nil _ t hs
    rw [logOverheadHours_none_val _ t hs2]
    dsimp only
    rw [allocateStories_stable]


theorem autoLog_val_done (env : SyncEnv) (st : SyncState)
    (h : autoLogRemaining env st ≤ 0) :
    autoLogJiraWorklogs env st =
      (⟨prefFilter st.oh.ohPrefix st.jira, st.oh⟩,
        prefFilter st.oh.ohPrefix st.jira ++ manualTempoEntry env st) := by
  simp only [autoLogJiraWorklogs]
  rw [if_pos h]

theorem autoLog_val_planning_empty (env : SyncEnv) (st : SyncState)
    (h0 : ¬ autoLogRemaining env st ≤ 0)
    (h1 : isPlanningWeek env.schedule st.oh env.targetDate = true)
    (h2 : st.oh.planning_stories = []) :
    autoLogJiraWorklogs env st =
      (⟨prefFilter st.oh.ohPrefix st.jira ++
          (logOverheadHours st.oh (autoLogRemaining env st)
            none none).created,
        (logOverheadHours st.oh (autoLogRemaining env st)
          none none).ohAfter⟩,
       prefFilter st.oh.ohPrefix st.jira ++ manualTempoEntry env st ++
        (logOverheadHours st.oh (autoLogRemaining env st)
          none none).created) := by
  simp only [autoLogJiraWorklogs]
  rw [if_neg h0, if_pos h1, if_pos h2]

theorem autoLog_val_planning_stories (env : SyncEnv) (st : SyncState)
    (h0 : ¬ autoLogRemaining env st ≤ 0)
    (h1 : isPlanningWeek env.schedule st.oh env.targetDate = true)
    (h2 : ¬ st.oh.planning_stories = []) :
    autoLogJiraWorklogs env st =
      (⟨prefFilter st.oh.ohPrefix st.jira ++
          (logOverheadHours st.oh (autoLogRemaining env st)
            (some st.oh.planning_stories)
            st.oh.planning_distribution).created,
        { st.oh with planning_stories :=
            (Option.getD
              (logOverheadHours st.oh (autoLogRemaining env st)
                (some st.oh.planning_stories)
                st.oh.planning_distribution).storiesAfter
              st.oh.planning_stories) }⟩,
       prefFilter st.oh.ohPrefix st.jira ++ manualTempoEntry env st ++
        (logOverheadHours st.oh (autoLogRemaining env st)
          (some st.oh.planning_stories)
          st.oh.planning_distribution).created) := by
  simp only [autoLogJiraWorklogs]
  rw [if_neg h0, if_pos h1, if_neg h2]

theorem autoLog_val_noactive_conf (env : SyncEnv) (st : SyncState)
    (h0 : ¬ autoLogRemaining env st ≤ 0)
    (h1 : ¬ isPlanningWeek env.schedule st.oh env.targetDate = true)
    (h2 : env.activeIssues = [])
    (h3 : isOverheadConfigured st.oh = true) :
    autoLogJiraWorklogs env st =
      (⟨prefFilter st.oh.ohPrefix st.jira ++
          (logOverheadHours st.oh (autoLogRemaining env st)
            none none).created,
        (logOverheadHours st.oh (autoLogRemaining env st)
          none none).ohAfter⟩,
       prefFilter st.oh.ohPrefix st.jira ++ manualTempoEntry env st ++
        (logOverheadHours st.oh (autoLogRemaining env st)
          none none).created) := by
  simp only [autoLogJiraWorklogs]
  rw [if_neg h0, if_neg h1, if_pos h2, if_pos h3]

theorem autoLog_val_noactive_notconf (env : SyncEnv) (st : SyncState)
    (h0 : ¬ autoLogRemaining env st ≤ 0)
    (h1 : ¬ isPlanningWeek env.schedule st.oh env.targetDate = true)
    (h2 : env.activeIssues = [])
    (h3 : ¬ isOverheadConfigured st.oh = true) :
    autoLogJiraWorklogs env st =
      (⟨prefFilter st.oh.ohPrefix st.jira, st.oh⟩,
        prefFilter st.oh.ohPrefix st.jira ++ manualTempoEntry env st) := by
  simp only [autoLogJiraWorklogs]
  rw [if_neg h0, if_neg h1, if_pos h2, if_neg h3]

theorem autoLog_val_active (env : SyncEnv) (st : SyncState)
    (h0 : ¬ autoLogRemaining env st ≤ 0)
    (h1 : ¬ isPlanningWeek env.schedule st.oh env.targetDate = true)
    (h2 : ¬ env.activeIssues = []) :
    autoLogJiraWorklogs env st =
      (⟨prefFilter st.oh.ohPrefix st.jira ++
          ticketSplitWorklogs env.activeIssues (autoLogRemaining env st),
        st.oh⟩,
       prefFilter st.oh.ohPrefix st.jira ++ manualTempoEntry env st ++
        ticketSplitWorklogs env.activeIssues
          (autoLogRemaining env st)) := by
  simp only [autoLogJiraWorklogs]
  rw [if_neg h0, if_neg h1, if_neg h2]


theorem autoLog_twice (env : SyncEnv) (st : SyncState)
    (hA : ∀ i ∈ env.activeIssues,
      strStartsWith st.oh.ohPrefix i.issue_key = false)
    (hS : ∀ s ∈ st.oh.current_pi.stories,
      strStartsWith st.oh.ohPrefix s.issue_key = false)
    (hP : ∀ s ∈ st.oh.planning_stories,
      strStartsWith st.oh.ohPrefix s.issue_key = false)
    (hF : strStartsWith st.oh.ohPrefix st.oh.fallback_issue_key = false) :
    autoLogJiraWorklogs env (autoLogJiraWorklogs env st).1 =
      autoLogJiraWorklogs env st := by
  have hstER : (⟨st.jira, st.oh⟩ : SyncState) = st := rfl
  by_cases h0 : autoLogRemaining env st ≤ 0
  · rw [autoLog_val_done env st h0]
    have hrem2 : autoLogRemaining env
        ⟨prefFilter st.oh.ohPrefix st.jira, st.oh⟩ =
        autoLogRemaining env st := by
      have h := autoLogRemaining_stable env st.jira [] st.oh st.oh rfl
        (by intro wl hw; exact absurd hw (List.not_mem_nil wl))
      rw [List.append_nil, hstER] at h
      exact h
    have h0s : autoLogRemaining env
        ⟨prefFilter st.oh.ohPrefix st.jira, st.oh⟩ ≤ 0 :=
      le_of_eq_of_le hrem2 h0
    dsimp only
    rw [autoLog_val_done env _ h0s]
    dsimp only
    rw [prefFilter_idem,
      manualTempoEntry_shape env ⟨prefFilter st.oh.ohPrefix st.jira, st.oh⟩,
      manualTempoEntry_shape env st]
  · by_cases h1 : isPlanningWeek env.schedule st.oh env.targetDate = true
    · by_cases h2 : st.oh.planning_stories = []
      · -- planning week, no planning stories: overhead fallback, twice
        rw [autoLog_val_planning_empty env st h0 h1 h2]
        have hC := logOverheadHours_none_unpref st.oh
          (autoLogRemaining env st) st.oh.ohPrefix hS hF
        obtain ⟨S2, hafter, -⟩ :=
          logOverheadHours_none_shape st.oh (autoLogRemaining env st)
        have hpref2 : (logOverheadHours st.oh (autoLogRemaining env st)
            none none).ohAfter.ohPrefix = st.oh.ohPrefix :=
          (congrArg OhConfig.ohPrefix hafter).trans rfl
        have hweek2 : isPlanningWeek env.schedule
            (logOverheadHours st.oh (autoLogRemaining env st)
              none none).ohAfter env.targetDate =
            isPlanningWeek env.schedule st.oh env.targetDate :=
          (congrArg (fun oh2 => isPlanningWeek env.schedule oh2
            env.targetDate) hafter).trans rfl
        have hplan2 : (logOverheadHours st.oh (autoLogRemaining env st)
            none none).ohAfter.planning_stories =
            st.oh.planning_stories :=
          (congrArg OhConfig.planning_stories hafter).trans rfl
        have hrem2 : autoLogRemaining env
            ⟨prefFilter st.oh.ohPrefix st.jira ++
              (logOverheadHours st.oh (autoLogRemaining env st)
                none none).created,
              (logOverheadHours st.oh (autoLogRemaining env st)
                none none).ohAfter⟩ =
            autoLogRemaining env st := by
          have h := autoLogRemaining_stable env st.jira _ st.oh _ hpref2 hC
          rw [hstER] at h
          exact h
        have h0s : ¬ autoLogRemaining env
            ⟨prefFilter st.oh.ohPrefix st.jira ++
              (logOverheadHours st.oh (autoLogRemaining env st)
                none none).created,
              (logOverheadHours st.oh (autoLogRemaining env st)
                none none).ohAfter⟩ ≤ 0 :=
          fun hc => h0 (le_of_eq_of_le hrem2.symm hc)
        have h1s := hweek2.trans h1
        have h2s := hplan2.trans h2
        dsimp only
        rw [autoLog_val_planning_empty env _ h0s h1s h2s]
        dsimp only
        rw [hrem2, hpref2,
          prefFilter_append_unpref st.oh.ohPrefix st.jira _ hC,
          logOverheadHours_none_stable st.oh (autoLogRemaining env st),
          manualTempoEntry_shape env
            ⟨prefFilter st.oh.ohPrefix st.jira ++
              (logOverheadHours st.oh (autoLogRemaining env st)
                none none).created,
              (logOverheadHours st.oh (autoLogRemaining env st)
                none none).ohAfter⟩,
          manualTempoEntry_shape env st]
      · -- planning week with planning stories: allocate them, twice
        rw [autoLog_val_planning_stories env st h0 h1 h2]
        have hval := logOverheadHours_some_val st.oh
          (autoLogRemaining env st) st.oh.planning_stories
          st.oh.planning_distribution h2
        have hC := logOverheadHours_some_unpref st.oh
          (autoLogRemaining env st) st.oh.planning_stories
          st.oh.planning_distribution st.oh.ohPrefix h2 hP
        rw [hval] at hC ⊢
        dsimp only at hC ⊢
        simp only [Option.getD_some]
        have hX : (allocateStories st.oh.planning_stories
            (st.oh.planning_distribution.getD "equal")
            (autoLogRemaining env st)).2 ≠ [] :=
          allocateStories_snd_ne_nil _ _ h2
        have hrem2 : autoLogRemaining env
            ⟨prefFilter st.oh.ohPrefix st.jira ++
              createdFromAllocations
                (allocateStories st.oh.planning_stories
                  (st.oh.planning_distribution.getD "equal")
                  (autoLogRemaining env st)).1,
              { st.oh with planning_stories :=
                  (allocateStories st.oh.planning_stories
                    (st.oh.planning_distribution.getD "equal")
                    (autoLogRemaining env st)).2 }⟩ =
            autoLogRemaining env st := by
          have h := autoLogRemaining_stable env st.jira _ st.oh
            ({ st.oh with planning_stories :=
              (allocateStories st.oh.planning_stories
                (st.oh.planning_distribution.getD "equal")
                (autoLogRemaining env st)).2 }) rfl hC
          rw [hstER] at h
          exact h
        have h0s : ¬ autoLogRemaining env
            ⟨prefFilter st.oh.ohPrefix st.jira ++
              createdFromAllocations
                (allocateStories st.oh.planning_stories
                  (st.oh.planning_distribution.getD "equal")
                  (autoLogRemaining env st)).1,
              { st.oh with planning_stories :=
                  (allocateStories st.oh.planning_stories
                    (st.oh.planning_distribution.getD "equal")
                    (autoLogRemaining env st)).2 }⟩ ≤ 0 :=
          fun hc => h0 (le_of_eq_of_le hrem2.symm hc)
        rw [autoLog_val_planning_stories env _ h0s h1 hX]
        dsimp only
        rw [hrem2]
        have hval2 := logOverheadHours_some_val
          ({ st.oh with planning_stories :=
            (allocateStories st.oh.planning_stories
              (st.oh.planning_distribution.getD "equal")
              (autoLogRemaining env st)).2 })
          (autoLogRemaining env st)
          ((allocateStories st.oh.planning_stories
            (st.oh.planning_distribution.getD "equal")
            (autoLogRemaining env st)).2)
          st.oh.planning_distribution hX
        rw [hval2]
        dsimp only
        simp only [Option.getD_some]
        have hpref2 : (⟨st.oh.current_pi,
            (allocateStories st.oh.planning_stories
              (st.oh.planning_distribution.getD "equal")
              (autoLogRemaining env st)).2,
            st.oh.planning_distribution, st.oh.pto_story_key,
            st.oh.fallback_issue_key, st.oh.project_prefix⟩ :
            OhConfig).ohPrefix = st.oh.ohPrefix := rfl
        rw [allocateStories_stable, hpref2,
          prefFilter_append_unpref st.oh.ohPrefix st.jira _ hC,
          manualTempoEntry_shape env
            ⟨prefFilter st.oh.ohPrefix st.jira ++
              createdFromAllocations
                (allocateStories st.oh.planning_stories
                  (st.oh.planning_distribution.getD "equal")
                  (autoLogRemaining env st)).1,
              { st.oh with planning_stories :=
                  (allocateStories st.oh.planning_stories
                    (st.oh.planning_distribution.getD "equal")
                    (autoLogRemaining env st)).2 }⟩,
          manualTempoEntry_shape env st]
    · by_cases h2 : env.activeIssues = []
      · by_cases h3 : isOverheadConfigured st.oh = true
        · -- no active issues, overhead configured: overhead booking, twice
          rw [autoLog_val_noactive_conf env st h0 h1 h2 h3]
          have hC := logOverheadHours_none_unpref st.oh
            (autoLogRemaining env st) st.oh.ohPrefix hS hF
          obtain ⟨S2, hafter, hS2case⟩ :=
            logOverheadHours_none_shape st.oh (autoLogRemaining env st)
          have hpref2 : (logOverheadHours st.oh (autoLogRemaining env st)
              none none).ohAfter.ohPrefix = st.oh.ohPrefix :=
            (congrArg OhConfig.ohPrefix hafter).trans rfl
          have hweek2 : isPlanningWeek env.schedule
              (logOverheadHours st.oh (autoLogRemaining env st)
                none none).ohAfter env.targetDate =
              isPlanningWeek env.schedule st.oh env.targetDate :=
            (congrArg (fun oh2 => isPlanningWeek env.schedule oh2
              env.targetDate) hafter).trans rfl
          have h3x := h3
          simp only [isOverheadConfigured, Bool.and_eq_true,
            decide_eq_true_eq] at h3x
          have hS2ne : S2 ≠ [] := by
            rcases hS2case with rfl | rfl
            · exact h3x.2
            · intro hmap
              exact h3x.2 (List.map_eq_nil_iff.mp hmap)
          have h3s : isOverheadConfigured
              (logOverheadHours st.oh (autoLogRemaining env st)
                none none).ohAfter = true := by
            rw [hafter]
            simp [isOverheadConfigured, h3x.1, hS2ne]
          have h1s : ¬ isPlanningWeek env.schedule
              (logOverheadHours st.oh (autoLogRemaining env st)
                none none).ohAfter env.targetDate = true :=
            fun hc => h1 (hweek2.symm.trans hc)
          have hrem2 : autoLogRemaining env
              ⟨prefFilter st.oh.ohPrefix st.jira ++
                (logOverheadHours st.oh (autoLogRemaining env st)
                  none none).created,
                (logOverheadHours st.oh (autoLogRemaining env st)
                  none none).ohAfter⟩ =
              autoLogRemaining env st := by
            have h := autoLogRemaining_stable env st.jira _ st.oh _
              hpref2 hC
            rw [hstER] at h
            exact h
          have h0s : ¬ autoLogRemaining env
              ⟨prefFilter st.oh.ohPrefix st.jira ++
                (logOverheadHours st.oh (autoLogRemaining env st)
                  none none).created,
                (logOverheadHours st.oh (autoLogRemaining env st)
                  none none).ohAfter⟩ ≤ 0 :=
            fun hc => h0 (le_of_eq_of_le hrem2.symm hc)
          dsimp only
          rw [autoLog_val_noactive_conf env _ h0s h1s h2 h3s]
          dsimp only
          rw [hrem2, hpref2,
            prefFilter_append_unpref st.oh.ohPrefix st.jira _ hC,
            logOverheadHours_none_stable st.oh (autoLogRemaining env st),
            manualTempoEntry_shape env
              ⟨prefFilter st.oh.ohPrefix st.jira ++
                (logOverheadHours st.oh (autoLogRemaining env st)
                  none none).created,
                (logOverheadHours st.oh (autoLogRemaining env st)
                  none none).ohAfter⟩,
            manualTempoEntry_shape env st]
        · -- no active issues, overhead not configured: warn only, twice
          rw [autoLog_val_noactive_notconf env st h0 h1 h2 h3]
          have hrem2 : autoLogRemaining env
              ⟨prefFilter st.oh.ohPrefix st.jira, st.oh⟩ =
              autoLogRemaining env st := by
            have h := autoLogRemaining_stable env st.jira [] st.oh st.oh
              rfl (by intro wl hw; exact absurd hw (List.not_mem_nil wl))
            rw [List.append_nil, hstER] at h
            exact h
          have h0s : ¬ autoLogRemaining env
              ⟨prefFilter st.oh.ohPrefix st.jira, st.oh⟩ ≤ 0 :=
            fun hc => h0 (le_of_eq_of_le hrem2.symm hc)
          dsimp only
          rw [autoLog_val_noactive_notconf env _ h0s h1 h2 h3]
          dsimp only
          rw [prefFilter_idem,
            manualTempoEntry_shape env
              ⟨prefFilter st.oh.ohPrefix st.jira, st.oh⟩,
            manualTempoEntry_shape env st]
      · -- active issues: equal ticket split, twice
        rw [autoLog_val_active env st h0 h1 h2]
        have hC := ticketSplit_unpref env.activeIssues
          (autoLogRemaining env st) st.oh.ohPrefix hA
        have hrem2 : autoLogRemaining env
            ⟨prefFilter st.oh.ohPrefix st.jira ++
              ticketSplitWorklogs env.activeIssues
                (autoLogRemaining env st), st.oh⟩ =
            autoLogRemaining env st := by
          have h := autoLogRemaining_stable env st.jira _ st.oh st.oh
            rfl hC
          rw [hstER] at h
          exact h
        have h0s : ¬ autoLogRemaining env
            ⟨prefFilter st.oh.ohPrefix st.jira ++
              ticketSplitWorklogs env.activeIssues
                (autoLogRemaining env st), st.oh⟩ ≤ 0 :=
          fun hc => h0 (le_of_eq_of_le hrem2.symm hc)
        dsimp only
        rw [autoLog_val_active env _ h0s h1 h2]
        dsimp only
        rw [hrem2,
          prefFilter_append_unpref st.oh.ohPrefix st.jira _ hC,
          manualTempoEntry_shape env
            ⟨prefFilter st.oh.ohPrefix st.jira ++
              ticketSplitWorklogs env.activeIssues
                (autoLogRemaining env st), st.oh⟩,
          manualTempoEntry_shape env st]



/-- C4 counterexample: on the working Monday 2026-01-12 with active
tickets `OVERHEAD-1` and `PROJ-2`, the first run books 4h on each; the
second run keeps the `OVERHEAD-1` entry as overhead, deletes only
`PROJ-2`, and splits the remaining 4h across both tickets again, ending
with three worklogs instead of two. -/
theorem autolog_not_idempotent_cex :
    (autoLogJiraWorklogs c4Env
        (autoLogJiraWorklogs c4Env c4State).1).1.jira ≠
      (autoLogJiraWorklogs c4Env c4State).1.jira := by
  have h8 : dailySeconds c4Env.schedule.dailyHours = 28800 :=
    dailySeconds_eight
  simp only [autoLogJiraWorklogs, autoLogRemaining, h8]
  decide

/-- C4 (amended): the developer day-reconciliation run twice with
unchanged external state is idempotent provided none of the keys it can
book on — active tickets, configured current-PI stories, planning
stories, the fallback issue — carries the overhead project prefix: the
second run then deletes and recreates exactly the first run's bookings
and returns the identical state and report. -/
theorem autolog_idempotent (env : SyncEnv) (st : SyncState)
    (hA : ∀ i ∈ env.activeIssues,
      strStartsWith st.oh.ohPrefix i.issue_key = false)
    (hS : ∀ s ∈ st.oh.current_pi.stories,
      strStartsWith st.oh.ohPrefix s.issue_key = false)
    (hP : ∀ s ∈ st.oh.planning_stories,
      strStartsWith st.oh.ohPrefix s.issue_key = false)
    (hF : strStartsWith st.oh.ohPrefix st.oh.fallback_issue_key = false) :
    autoLogJiraWorklogs env (autoLogJiraWorklogs env st).1 =
      autoLogJiraWorklogs env st :=
  autoLog_twice env st hA hS hP hF

/-- C4 witness: a run over one non-overhead active ticket on a plain
working Monday satisfies the hypotheses and is idempotent. -/
theorem autolog_idempotent_witness :
    (∀ i ∈ c4wEnv.activeIssues,
      strStartsWith c4State.oh.ohPrefix i.issue_key = false) ∧
    (∀ s ∈ c4State.oh.current_pi.stories,
      strStartsWith c4State.oh.ohPrefix s.issue_key = false) ∧
    (∀ s ∈ c4State.oh.planning_stories,
      strStartsWith c4State.oh.ohPrefix s.issue_key = false) ∧
    strStartsWith c4State.oh.ohPrefix c4State.oh.fallback_issue_key =
      false ∧
    autoLogJiraWorklogs c4wEnv (autoLogJiraWorklogs c4wEnv c4State).1 =
      autoLogJiraWorklogs c4wEnv c4State :=
  ⟨by decide, by decide, by decide, by decide,
    autolog_idempotent c4wEnv c4State (by decide) (by decide)
      (by decide) (by decide)⟩

end Tempo
